import Mathlib

/-!
Verification development for the "orchestra" multi-agent orchestration engine.

The definitions below are a shallow embedding of the engine's pure core,
translated from the TypeScript source:
  * the task store (`createTask`, `claimTask`, `markTaskCompleted`,
    `recordTaskError`, `releaseTask`, `markTaskFailed`, `releaseStuckTasks`),
  * the error classifier and the per-category policy table
    (`detectError`, `ERROR_HANDLERS`, `shouldRetry`, `shouldReassign`),
  * the agent pool (`createInitialAgentState`, `recordAgentSuccess`,
    `recordAgentFailure`, `refreshAgentCooldowns`, `selectAgent`),
  * the Judge heuristic fallback (`heuristicDecision`),
  * the planner wake-up controller,
  * the Planner output parser (`parsePlannerOutput`) together with a model of
    JavaScript `JSON.parse` and of the three extraction regexes.

Conventions: JavaScript numbers are modelled as `Nat`/`Int`/`Rat` (division by
zero in `Rat` is 0, standing in for the IEEE `NaN`/`Infinity` results, which
are never equal to any finite claimed value); ISO timestamp strings are kept
abstract as `String` (or `Nat` for the agent-pool clock where ordering
matters); the effectful wrappers (load, save, logging) are elided and each
operation acts on the in-memory value it loads and saves.
-/

namespace Orchestra

/-! ## JavaScript string and number helpers -/

/-- White-space characters skipped by JavaScript `parseInt`. -/
def isJsSpace (c : Char) : Bool :=
  c = ' ' || c = '\t' || c = '\n' || c = '\r' || c = '\x0b' || c = '\x0c'

/-- Numeric value of a leading run of decimal digits; `none` when there is no
leading digit (`parseInt` returns `NaN` in that case). -/
def leadingDigitsValue (cs : List Char) : Option Nat :=
  let d := cs.takeWhile Char.isDigit
  if d.isEmpty then none
  else some (d.foldl (fun a c => 10 * a + (c.toNat - 48)) 0)

/-- Model of JavaScript `parseInt(s, 10)`: skip white-space, optional sign,
then the value of the leading digit run; `none` models `NaN`. -/
def parseIntJS (s : String) : Option Int :=
  let cs := s.toList.dropWhile isJsSpace
  match cs with
  | '-' :: rest => (leadingDigitsValue rest).map (fun n => -(n : Int))
  | '+' :: rest => (leadingDigitsValue rest).map (fun n => (n : Int))
  | _ => (leadingDigitsValue cs).map (fun n => (n : Int))

/-- JavaScript `%` on integers: remainder carrying the sign of the dividend. -/
def jsRem (a : Int) (n : Nat) : Int :=
  if 0 ≤ a then a % (n : Int) else -((-a) % (n : Int))

/-! ## Task data model (types/index.ts) -/

/-- The fixed enumeration of agent kinds. -/
inductive AgentType where
  | claude
  | codex
  | opencode
deriving DecidableEq

/-- Task lifecycle status. -/
inductive TaskStatus where
  | pending
  | in_progress
  | completed
  | failed
  | waiting_agent
deriving DecidableEq

/-- Error taxonomy of the classifier. -/
inductive ErrorCategory where
  | rate_limit
  | timeout
  | crash
  | invalid_output
  | git_conflict
  | permission
  | network
  | unknown
deriving DecidableEq

/-- Result recorded for one agent attempt. -/
inductive AttemptResult where
  | completed
  | failed
  | timeout
  | rate_limited
deriving DecidableEq

/-- Structured error attached to tasks and attempts. -/
structure ErrorInfo where
  category : ErrorCategory
  message : String
  occurred_at : String
  agent : AgentType
  output_snippet : String
deriving DecidableEq

/-- One start-to-finish execution of a task by one agent. -/
structure AgentAttempt where
  agent : AgentType
  started_at : String
  ended_at : String
  result : AttemptResult
  error : Option ErrorInfo
deriving DecidableEq

/-- A task record, with all fields of the source's `Task` interface. -/
structure Task where
  id : String
  title : String
  description : String
  status : TaskStatus
  assigned_agent : Option AgentType
  worker_id : Option String
  files : List String
  created_by : String
  created_at : String
  started_at : Option String
  completed_at : Option String
  attempts : Nat
  max_attempts : Nat
  last_error : Option ErrorInfo
  agent_history : List AgentAttempt
deriving DecidableEq

/-! ## Task store operations (core/tasks.ts) -/

/-- Build a fresh task (`createTask`); the generated id and the current
timestamp are passed in explicitly. -/
def createTask (title description createdBy : String) (files : List String)
    (maxAttempts : Nat) (id now : String) : Task :=
  { id := id
    title := title
    description := description
    status := .pending
    assigned_agent := none
    worker_id := none
    files := files
    created_by := createdBy
    created_at := now
    started_at := none
    completed_at := none
    attempts := 0
    max_attempts := maxAttempts
    last_error := none
    agent_history := [] }

/-- The in-place mutation `claimTask` performs on the selected task. -/
def claimUpdate (workerId : String) (agent : AgentType) (now : String)
    (t : Task) : Task :=
  { t with
    status := .in_progress
    assigned_agent := some agent
    worker_id := some workerId
    started_at := some now
    attempts := t.attempts + 1 }

/-- Replace the `j`-th task with status `pending` (0-based among pending
tasks, in list order) by its image under `f`; this mirrors mutating the
element of `pendingTasks` in place, since that array holds references into
the full task list. -/
def updateNthPending (f : Task → Task) : List Task → Nat → List Task
  | [], _ => []
  | t :: rest, j =>
    if t.status = .pending then
      match j with
      | 0 => f t :: rest
      | j + 1 => t :: updateNthPending f rest j
    else
      t :: updateNthPending f rest j

/-- Model of `claimTask`: filter the pending tasks, index them by
`parseInt(workerId) - 1` modulo their count (with JavaScript remainder and
`NaN`/negative-index lookups yielding `undefined`, hence `null`), and move
the selected task to `in_progress`.  Returns the updated task list together
with the claimed task, mirroring the mutate-then-save of the source. -/
def claimTask (tasks : List Task) (workerId : String) (agent : AgentType)
    (now : String) : List Task × Option Task :=
  let pending := tasks.filter (fun t => decide (t.status = .pending))
  if pending.length = 0 then (tasks, none)
  else
    match parseIntJS workerId with
    | none => (tasks, none)
    | some k =>
      let workerIndex : Int := k - 1
      let r := jsRem workerIndex pending.length
      if 0 ≤ r then
        match pending.get? r.toNat with
        | none => (tasks, none)
        | some t0 =>
          (updateNthPending (claimUpdate workerId agent now) tasks r.toNat,
            some (claimUpdate workerId agent now t0))
      else (tasks, none)

/-- Replace the first task whose id is `taskId` by its image under `f`; when
no task has that id the list is returned unchanged (the source throws before
saving, so the persisted store is unchanged). -/
def updateFirstById (taskId : String) (f : Task → Task) : List Task → List Task
  | [] => []
  | t :: rest =>
    if t.id = taskId then f t :: rest else t :: updateFirstById taskId f rest

/-- Model of `markTaskCompleted`. -/
def markTaskCompleted (tasks : List Task) (taskId : String) (agent : AgentType)
    (now : String) : List Task :=
  updateFirstById taskId (fun t =>
    { t with
      agent_history := t.agent_history ++
        [{ agent := agent
           started_at := t.started_at.getD now
           ended_at := now
           result := .completed
           error := none }]
      status := .completed
      completed_at := some now }) tasks

/-- Model of `recordTaskError`. -/
def recordTaskError (tasks : List Task) (taskId : String) (err : ErrorInfo)
    (now : String) : List Task :=
  updateFirstById taskId (fun t =>
    { t with
      agent_history := t.agent_history ++
        [{ agent := err.agent
           started_at := t.started_at.getD now
           ended_at := now
           result := if err.category = .rate_limit then .rate_limited else .failed
           error := some err }]
      last_error := some err }) tasks

/-- Model of `releaseTask`. -/
def releaseTask (tasks : List Task) (taskId : String) : List Task :=
  updateFirstById taskId (fun t =>
    { t with status := .pending, assigned_agent := none, worker_id := none }) tasks

/-- Model of `markTaskFailed`. -/
def markTaskFailed (tasks : List Task) (taskId : String) (now : String) :
    List Task :=
  updateFirstById taskId (fun t =>
    { t with status := .failed, completed_at := some now }) tasks

/-- Model of `releaseStuckTasks` (every `in_progress` task back to pending). -/
def releaseStuckTasks (tasks : List Task) : List Task :=
  tasks.map (fun t =>
    if t.status = .in_progress then
      { t with status := .pending, assigned_agent := none, worker_id := none }
    else t)

/-- One Task Store operation, as invoked by the engine (`add` is always fed a
task freshly built by `createTask`). -/
inductive TaskOp where
  | add (title description createdBy : String) (files : List String)
      (maxAttempts : Nat) (id now : String)
  | claim (workerId : String) (agent : AgentType) (now : String)
  | complete (taskId : String) (agent : AgentType) (now : String)
  | recordError (taskId : String) (err : ErrorInfo) (now : String)
  | release (taskId : String)
  | markFailed (taskId : String) (now : String)
  | releaseStuck

/-- Apply one Task Store operation to the persisted task list. -/
def applyOp (tasks : List Task) : TaskOp → List Task
  | .add title description createdBy files maxAttempts id now =>
    tasks ++ [createTask title description createdBy files maxAttempts id now]
  | .claim workerId agent now => (claimTask tasks workerId agent now).1
  | .complete taskId agent now => markTaskCompleted tasks taskId agent now
  | .recordError taskId err now => recordTaskError tasks taskId err now
  | .release taskId => releaseTask tasks taskId
  | .markFailed taskId now => markTaskFailed tasks taskId now
  | .releaseStuck => releaseStuckTasks tasks

/-- Apply a sequence of Task Store operations starting from the empty store. -/
def applyOps (ops : List TaskOp) : List Task :=
  ops.foldl applyOp []

/-! ## Error classifier and policy table (core/error-handler.ts) -/

/-- Substring test on character lists (`hay` contains `pat`). -/
def hasSub (pat : List Char) : List Char → Bool
  | [] => pat.isEmpty
  | c :: rest => pat.isPrefixOf (c :: rest) || hasSub pat rest

/-- JavaScript `hay.includes(pat)` on strings. -/
def sIncludes (hay pat : String) : Bool :=
  hasSub pat.toList hay.toList

/-- ASCII lower-casing of one character. -/
def lowerChar (c : Char) : Char :=
  if 'A' ≤ c ∧ c ≤ 'Z' then Char.ofNat (c.toNat + 32) else c

/-- Model of JavaScript `toLowerCase()` (ASCII range; the classifier's
patterns are all ASCII). -/
def jsToLower (s : String) : String :=
  String.mk (s.toList.map lowerChar)

/-- The per-category error policy record. -/
structure ErrorHandler where
  category : ErrorCategory
  retry : Bool
  cooldown_minutes : ℚ
  max_retries : Nat
  fallback_to_other_agent : Bool
  action : String
deriving DecidableEq

/-- The fixed `ERROR_HANDLERS` table of the source. -/
def ERROR_HANDLERS : ErrorCategory → ErrorHandler
  | .rate_limit =>
    { category := .rate_limit, retry := false, cooldown_minutes := 45
      max_retries := 0, fallback_to_other_agent := true, action := "reassign" }
  | .timeout =>
    { category := .timeout, retry := true, cooldown_minutes := 0
      max_retries := 2, fallback_to_other_agent := true, action := "retry" }
  | .crash =>
    { category := .crash, retry := true, cooldown_minutes := 1
      max_retries := 3, fallback_to_other_agent := true, action := "retry" }
  | .invalid_output =>
    { category := .invalid_output, retry := true, cooldown_minutes := 0
      max_retries := 2, fallback_to_other_agent := false, action := "retry" }
  | .git_conflict =>
    { category := .git_conflict, retry := true, cooldown_minutes := 0
      max_retries := 2, fallback_to_other_agent := false, action := "retry" }
  | .permission =>
    { category := .permission, retry := false, cooldown_minutes := 0
      max_retries := 0, fallback_to_other_agent := false, action := "fail" }
  | .network =>
    { category := .network, retry := true, cooldown_minutes := 1 / 2
      max_retries := 5, fallback_to_other_agent := false, action := "retry" }
  | .unknown =>
    { category := .unknown, retry := true, cooldown_minutes := 1
      max_retries := 1, fallback_to_other_agent := true, action := "retry" }

/-- Model of `detectError`: classify CLI output and exit code by the first
matching rule, exactly as the source's cascade of `includes` tests on the
lower-cased output. -/
def detectError (output : String) (exitCode : Int) : ErrorCategory :=
  let lower := jsToLower output
  if sIncludes lower "rate limit" || sIncludes lower "too many requests" ||
      sIncludes lower "quota exceeded" || sIncludes lower "429" ||
      sIncludes lower "rate_limit" || sIncludes lower "ratelimit" then
    .rate_limit
  else if exitCode = 124 || sIncludes lower "timed out" ||
      sIncludes lower "timeout" then
    .timeout
  else if sIncludes lower "permission denied" || sIncludes lower "eacces" ||
      sIncludes lower "access denied" || sIncludes lower "unauthorized" then
    .permission
  else if sIncludes lower "enotfound" || sIncludes lower "econnrefused" ||
      sIncludes lower "econnreset" || sIncludes lower "network error" ||
      sIncludes lower "connection refused" || sIncludes lower "fetch failed" then
    .network
  else if sIncludes lower "conflict" || sIncludes lower "merge conflict" ||
      sIncludes lower "cannot merge" then
    .git_conflict
  else if exitCode ≠ 0 && !(sIncludes lower "error") then
    .crash
  else
    .unknown

/-- Model of `shouldRetry`. -/
def shouldRetry (category : ErrorCategory) (attempts maxAttempts : Nat) : Bool :=
  let handler := ERROR_HANDLERS category
  if !handler.retry then false
  else decide (attempts < maxAttempts) && decide (attempts ≤ handler.max_retries)

/-- Model of `shouldReassign`. -/
def shouldReassign (category : ErrorCategory) (agentHistoryLength : Nat) : Bool :=
  let handler := ERROR_HANDLERS category
  if 3 ≤ agentHistoryLength then false
  else handler.fallback_to_other_agent

/-! ## Agent pool (core/agents.ts)

Timestamps (`available_at`, the current time) are epoch milliseconds as `Nat`;
success rates, durations and cooldown minutes are `Rat`.  The human-readable
`reason` strings of `SelectionResult` are operator text and are elided. -/

/-- Agent health status. -/
inductive AgentStatus where
  | available
  | busy
  | rate_limited
  | errored
  | exhausted
  | disabled
deriving DecidableEq

/-- Per-kind counters. -/
structure AgentStats where
  tasks_completed : Nat
  tasks_failed : Nat
  total_errors : Nat
  last_error : Option ErrorCategory
  last_error_at : Option Nat
deriving DecidableEq

/-- Per-kind health record. -/
structure AgentHealth where
  consecutive_failures : Nat
  success_rate : ℚ
  avg_task_duration_ms : ℚ
deriving DecidableEq

/-- Per-kind agent state. -/
structure AgentState where
  status : AgentStatus
  available_at : Option Nat
  cooldown_minutes : ℚ
  stats : AgentStats
  health : AgentHealth
deriving DecidableEq

/-- The pool's `agents` record; the field order mirrors the insertion order
of the source object, which is also the fixed fallback order. -/
structure AgentPool where
  claude : AgentState
  codex : AgentState
  opencode : AgentState
deriving DecidableEq

/-- Look up one kind's state. -/
def AgentPool.get (pool : AgentPool) : AgentType → AgentState
  | .claude => pool.claude
  | .codex => pool.codex
  | .opencode => pool.opencode

/-- Replace one kind's state. -/
def AgentPool.set (pool : AgentPool) : AgentType → AgentState → AgentPool
  | .claude, s => { pool with claude := s }
  | .codex, s => { pool with codex := s }
  | .opencode, s => { pool with opencode := s }

/-- Iteration order of `Object.keys(pool.agents)`, equal to the configured
fallback order `[claude, codex, opencode]`. -/
def agentKinds : List AgentType := [.claude, .codex, .opencode]

/-- Model of `createInitialAgentState`. -/
def createInitialAgentState : AgentState :=
  { status := .available
    available_at := none
    cooldown_minutes := 0
    stats :=
      { tasks_completed := 0, tasks_failed := 0, total_errors := 0
        last_error := none, last_error_at := none }
    health :=
      { consecutive_failures := 0, success_rate := 1, avg_task_duration_ms := 0 } }

/-- Model of `recordAgentSuccess` on one kind's state. -/
def recordAgentSuccess (s : AgentState) (durationMs : ℚ) : AgentState :=
  let completed := s.stats.tasks_completed + 1
  let total := completed + s.stats.tasks_failed
  let prevAvg := s.health.avg_task_duration_ms
  let newAvg :=
    if prevAvg = 0 then durationMs
    else (prevAvg * ((completed : ℚ) - 1) + durationMs) / (completed : ℚ)
  { s with
    status := .available
    stats := { s.stats with tasks_completed := completed }
    health :=
      { consecutive_failures := 0
        success_rate := (completed : ℚ) / (total : ℚ)
        avg_task_duration_ms := newAvg } }

/-- Model of `recordAgentFailure` on one kind's state; `maxConsecutive` is
`pool_config.max_consecutive_failures` (3 in the initial pool). -/
def recordAgentFailure (s : AgentState) (category : ErrorCategory) (now : Nat)
    (maxConsecutive : Nat) : AgentState :=
  let failed := s.stats.tasks_failed + 1
  let consecutive := s.health.consecutive_failures + 1
  let total := s.stats.tasks_completed + failed
  { s with
    status := if maxConsecutive ≤ consecutive then .errored else .available
    stats :=
      { s.stats with
        tasks_failed := failed
        total_errors := s.stats.total_errors + 1
        last_error := some category
        last_error_at := some now }
    health :=
      { s.health with
        consecutive_failures := consecutive
        success_rate := (s.stats.tasks_completed : ℚ) / (total : ℚ) } }

/-- The per-kind body of the `refreshAgentCooldowns` loop. -/
def refreshOne (s : AgentState) (now : Nat) : AgentState :=
  match s.available_at with
  | some t =>
    if s.status = .rate_limited ∧ t ≤ now then
      { s with status := .available, available_at := none, cooldown_minutes := 0 }
    else s
  | none => s

/-- Model of `refreshAgentCooldowns`: every rate-limited kind whose deadline
has passed becomes available again.  The source loops over the kinds, each
iteration reading and mutating only its own kind's state, so the loop is the
independent per-kind update. -/
def refreshAgentCooldowns (pool : AgentPool) (now : Nat) : AgentPool :=
  { claude := refreshOne pool.claude now
    codex := refreshOne pool.codex now
    opencode := refreshOne pool.opencode now }

/-- Result of agent selection; `deadline` carries the source's `until` field
(reason strings elided). -/
inductive SelectionResult where
  | selected (agent : AgentType)
  | wait (deadline : Nat)
  | pause
deriving DecidableEq

/-- The accumulator of JavaScript's stable sort head computation: fold the
tail, keeping the current best and replacing it only on a strictly greater
key. -/
def pickAcc {α β : Type} [LinearOrder β] (key : α → β) (b : α) (l : List α) : α :=
  l.foldl (fun b x => if key b < key x then x else b) b

/-- The analogous accumulator keeping the strictly smaller key. -/
def pickMinAcc {α β : Type} [LinearOrder β] (key : α → β) (b : α)
    (l : List α) : α :=
  l.foldl (fun b x => if key x < key b then x else b) b

/-- First element of the list attaining the maximal key: this is the head of
a stable descending sort, which is how the source picks `sorted[0]`. -/
def firstMaxBy {α β : Type} [LinearOrder β] (key : α → β) : List α → Option α
  | [] => none
  | a :: rest => some (pickAcc key a rest)

/-- First element of the list attaining the minimal key (head of a stable
ascending sort). -/
def firstMinBy {α β : Type} [LinearOrder β] (key : α → β) : List α → Option α
  | [] => none
  | a :: rest => some (pickMinAcc key a rest)

/-- JavaScript `x || 1` on numbers (0 is falsy). -/
def jsOr1 (x : ℚ) : ℚ := if x = 0 then 1 else x

/-- The health score the source computes while sorting:
`success_rate * (1 / (avg_task_duration_ms || 1))`. -/
def healthScore (s : AgentState) : ℚ :=
  s.health.success_rate * (1 / jsOr1 s.health.avg_task_duration_ms)

/-- Sort key of the rate-limited wait computation:
`new Date(available_at ?? 0)`. -/
def rlSortKey (s : AgentState) : Nat := s.available_at.getD 0

/-- Model of `selectAgent`: refresh cooldowns, then pick the best-scoring
available kind (stable sort, so ties go to the earlier kind in
`agentKinds`); otherwise wait for the soonest rate-limited kind; otherwise
pause. -/
def selectAgent (pool : AgentPool) (now : Nat) : SelectionResult :=
  let p := refreshAgentCooldowns pool now
  let available := agentKinds.filter (fun k => decide ((p.get k).status = .available))
  match firstMaxBy (fun k => healthScore (p.get k)) available with
  | some best => .selected best
  | none =>
    let rateLimited :=
      agentKinds.filter (fun k => decide ((p.get k).status = .rate_limited))
    match firstMinBy (fun k => rlSortKey (p.get k)) rateLimited with
    | some soonest => .wait (((p.get soonest).available_at).getD now)
    | none => .pause

/-! ## Judge heuristic fallback (core/judge.ts) -/

/-- The Judge's three-way decision. -/
inductive JudgeDecision where
  | CONTINUE
  | COMPLETE
  | ABORT
deriving DecidableEq

/-- Task statistics handed to the Judge. -/
structure JudgeStats where
  completed : Nat
  failed : Nat
  pending : Nat
  total : Nat
deriving DecidableEq

/-- Model of `JudgeRunner.heuristicDecision` (decision component only; the
reasoning text and progress percentage are operator output). -/
def heuristicDecision (stats : JudgeStats) (cycleCurrent cycleMax : Nat) :
    JudgeDecision :=
  if cycleMax ≤ cycleCurrent then .ABORT
  else if stats.pending = 0 ∧ stats.failed = 0 ∧ 0 < stats.completed then .COMPLETE
  else if 0 < stats.total ∧ (1 : ℚ) / 2 < (stats.failed : ℚ) / (stats.total : ℚ) then
    .ABORT
  else .CONTINUE

/-! ## Planner wake-up controller (core/events.ts)

State reduced to the completion counter; the controller is enabled and no
manual trigger occurs.  Each `task:completed` event increments the counter
and, when it reaches the threshold, publishes `planner:wakeup` with reason
`threshold_reached` and resets the counter. -/

/-- One `task:completed` delivery: new counter value and whether a
`planner:wakeup` was published. -/
def wakeupStep (threshold counter : Nat) : Nat × Bool :=
  let c := counter + 1
  if threshold ≤ c then (0, true) else (c, false)

/-- Counter value after `n` completions (starting from a fresh controller). -/
def wakeupCounter (threshold : Nat) : Nat → Nat
  | 0 => 0
  | n + 1 => (wakeupStep threshold (wakeupCounter threshold n)).1

/-- Whether the `n`-th completion (1-based) publishes a wakeup. -/
def wakeupPublishes (threshold : Nat) : Nat → Bool
  | 0 => false
  | n + 1 => (wakeupStep threshold (wakeupCounter threshold n)).2

/-! ## JSON values and a model of JavaScript JSON.parse

A strict recursive-descent parser with fuel (the fuel is always ample for a
well-formed input).  Limitations: escaped surrogate halves are mapped to the
replacement behaviour of `Char.ofNat` and numbers are exact rationals rather
than IEEE doubles; neither is exercised by the inputs in this development. -/

/-- Opening brace, closing brace and backtick characters. -/
def braceO : Char := Char.ofNat 123

/-- Closing brace. -/
def braceC : Char := Char.ofNat 125

/-- Backtick. -/
def btick : Char := Char.ofNat 96

/-- Parsed JSON values. -/
inductive Json where
  | null
  | bool (b : Bool)
  | num (q : ℚ)
  | str (s : String)
  | arr (elems : List Json)
  | obj (fields : List (String × Json))

/-- JSON insignificant white-space. -/
def jsonWs (c : Char) : Bool := c = ' ' || c = '\t' || c = '\n' || c = '\r'

/-- Skip JSON white-space. -/
def skipWs (cs : List Char) : List Char := cs.dropWhile jsonWs

/-- Hexadecimal digit value. -/
def hexVal (c : Char) : Option Nat :=
  if '0' ≤ c ∧ c ≤ '9' then some (c.toNat - 48)
  else if 'a' ≤ c ∧ c ≤ 'f' then some (c.toNat - 87)
  else if 'A' ≤ c ∧ c ≤ 'F' then some (c.toNat - 55)
  else none

/-- Four hex digits of a `\u` escape. -/
def parseHex4 : List Char → Option (Nat × List Char)
  | a :: b :: c :: d :: rest =>
    match hexVal a, hexVal b, hexVal c, hexVal d with
    | some x, some y, some z, some w => some (((x * 16 + y) * 16 + z) * 16 + w, rest)
    | _, _, _, _ => none
  | _ => none

/-- Body of a JSON string after the opening quote, with escapes. -/
def parseStrBody (fuel : Nat) (cs : List Char) (acc : List Char) :
    Option (String × List Char) :=
  match fuel, cs with
  | 0, _ => none
  | _, [] => none
  | fuel + 1, c :: rest =>
    if c = '"' then some (String.mk acc.reverse, rest)
    else if c = '\\' then
      match rest with
      | [] => none
      | e :: rest2 =>
        if e = '"' ∨ e = '\\' ∨ e = '/' then parseStrBody fuel rest2 (e :: acc)
        else if e = 'b' then parseStrBody fuel rest2 ('\x08' :: acc)
        else if e = 'f' then parseStrBody fuel rest2 ('\x0c' :: acc)
        else if e = 'n' then parseStrBody fuel rest2 ('\n' :: acc)
        else if e = 'r' then parseStrBody fuel rest2 ('\r' :: acc)
        else if e = 't' then parseStrBody fuel rest2 ('\t' :: acc)
        else if e = 'u' then
          match parseHex4 rest2 with
          | some (n, rest3) => parseStrBody fuel rest3 (Char.ofNat n :: acc)
          | none => none
        else none
    else if c.toNat < 32 then none
    else parseStrBody fuel rest (c :: acc)

/-- Value of a digit run. -/
def digitsNat (ds : List Char) : Nat :=
  ds.foldl (fun a c => 10 * a + (c.toNat - 48)) 0

/-- A strict JSON number: optional minus, integer part without leading zeros,
optional fraction and exponent; returns the exact rational value. -/
def parseNumber (cs : List Char) : Option (ℚ × List Char) :=
  let (neg, cs1) :=
    match cs with
    | '-' :: rest => (true, rest)
    | _ => (false, cs)
  let intDigits := cs1.takeWhile Char.isDigit
  let cs2 := cs1.drop intDigits.length
  if intDigits.isEmpty then none
  else if intDigits.length > 1 ∧ intDigits.head? = some '0' then none
  else
    let (fracDigits, cs3) :=
      match cs2 with
      | '.' :: rest =>
        let fs := rest.takeWhile Char.isDigit
        (fs, rest.drop fs.length)
      | _ => ([], cs2)
    if (match cs2 with | '.' :: _ => fracDigits.isEmpty | _ => false) then none
    else
      let expPart : Option (Option (Bool × Nat) × List Char) :=
        match cs3 with
        | e :: rest =>
          if e = 'e' ∨ e = 'E' then
            let (esign, rest2) :=
              match rest with
              | '+' :: r => (false, r)
              | '-' :: r => (true, r)
              | _ => (false, rest)
            let es := rest2.takeWhile Char.isDigit
            if es.isEmpty then none
            else some (some (esign, digitsNat es), rest2.drop es.length)
          else some (none, cs3)
        | [] => some (none, cs3)
      match expPart with
      | none => none
      | some (expv, rest) =>
        let mantissa : ℚ := (digitsNat (intDigits ++ fracDigits) : ℚ)
        let scaled : ℚ := mantissa / ((10 : ℚ) ^ fracDigits.length)
        let withExp : ℚ :=
          match expv with
          | none => scaled
          | some (true, e) => scaled / ((10 : ℚ) ^ e)
          | some (false, e) => scaled * ((10 : ℚ) ^ e)
        some ((if neg then -withExp else withExp), rest)

mutual

/-- Parse one JSON value (leading white-space allowed). -/
def parseValue (fuel : Nat) (cs : List Char) : Option (Json × List Char) :=
  match fuel with
  | 0 => none
  | fuel + 1 =>
    match skipWs cs with
    | [] => none
    | c :: rest =>
      if c = '"' then
        match parseStrBody (rest.length + 1) rest [] with
        | some (s, rest2) => some (.str s, rest2)
        | none => none
      else if c = 't' then
        if ['r', 'u', 'e'].isPrefixOf rest then some (.bool true, rest.drop 3)
        else none
      else if c = 'f' then
        if ['a', 'l', 's', 'e'].isPrefixOf rest then some (.bool false, rest.drop 4)
        else none
      else if c = 'n' then
        if ['u', 'l', 'l'].isPrefixOf rest then some (.null, rest.drop 3) else none
      else if c = braceO then
        parseObjFields fuel rest
      else if c = '[' then
        parseArrElems fuel rest
      else
        match parseNumber (c :: rest) with
        | some (q, rest2) => some (.num q, rest2)
        | none => none

/-- Parse array elements after the opening bracket. -/
def parseArrElems (fuel : Nat) (cs : List Char) : Option (Json × List Char) :=
  match fuel with
  | 0 => none
  | fuel + 1 =>
    match skipWs cs with
    | ']' :: rest => some (.arr [], rest)
    | cs' =>
      match parseArrLoop fuel cs' with
      | some (xs, rest) => some (.arr xs, rest)
      | none => none

/-- Comma-separated array elements up to the closing bracket. -/
def parseArrLoop (fuel : Nat) (cs : List Char) : Option (List Json × List Char) :=
  match fuel with
  | 0 => none
  | fuel + 1 =>
    match parseValue fuel cs with
    | none => none
    | some (v, rest) =>
      match skipWs rest with
      | ',' :: rest2 =>
        match parseArrLoop fuel rest2 with
        | some (xs, rest3) => some (v :: xs, rest3)
        | none => none
      | ']' :: rest2 => some ([v], rest2)
      | _ => none

/-- Parse object fields after the opening brace. -/
def parseObjFields (fuel : Nat) (cs : List Char) : Option (Json × List Char) :=
  match fuel with
  | 0 => none
  | fuel + 1 =>
    match skipWs cs with
    | c :: rest =>
      if c = braceC then some (.obj [], rest)
      else
        match parseObjLoop fuel (c :: rest) with
        | some (fs, rest2) => some (.obj fs, rest2)
        | none => none
    | [] => none

/-- Comma-separated `"key": value` pairs up to the closing brace. -/
def parseObjLoop (fuel : Nat) (cs : List Char) :
    Option (List (String × Json) × List Char) :=
  match fuel with
  | 0 => none
  | fuel + 1 =>
    match skipWs cs with
    | '"' :: rest =>
      match parseStrBody (rest.length + 1) rest [] with
      | none => none
      | some (key, rest2) =>
        match skipWs rest2 with
        | ':' :: rest3 =>
          match parseValue fuel rest3 with
          | none => none
          | some (v, rest4) =>
            match skipWs rest4 with
            | ',' :: rest5 =>
              match parseObjLoop fuel rest5 with
              | some (fs, rest6) => some ((key, v) :: fs, rest6)
              | none => none
            | c :: rest5 =>
              if c = braceC then some ([(key, v)], rest5) else none
            | [] => none
        | _ => none
    | _ => none

end

/-- Model of `JSON.parse`: parse one value and require only white-space to
remain; `none` models a thrown `SyntaxError`. -/
def jsonParse (s : String) : Option Json :=
  let cs := s.toList
  match parseValue (cs.length + 2) cs with
  | some (v, rest) => if (skipWs rest).isEmpty then some v else none
  | none => none

/-- Property access `j.key` (on a non-object this is `undefined`, i.e.
`none`); for duplicate keys the last occurrence wins, as in JavaScript. -/
def Json.getField (j : Json) (key : String) : Option Json :=
  match j with
  | .obj fields => ((fields.reverse).find? (fun kv => kv.1 = key)).map (·.2)
  | _ => none

/-- JavaScript truthiness of an optional property value. -/
def jsTruthy : Option Json → Bool
  | none => false
  | some .null => false
  | some (.bool b) => b
  | some (.num q) => !(q = 0 : Bool)
  | some (.str s) => !(s = "" : Bool)
  | some (.arr _) => true
  | some (.obj _) => true

/-! ## The three extraction regexes of `parsePlannerOutput`

`/\x7b[\s\S]*"analysis"[\s\S]*"tasks"[\s\S]*\x7d/` (greedy, no capture
group), a fenced block tagged `json` and any fenced block (both with a lazy
capture).  Each matcher returns the string handed to `JSON.parse`, i.e.
`match[1] || match[0]` of the source. -/

/-- Smallest index `≥ start` at which `pat` occurs in `cs`. -/
def findFrom (pat cs : List Char) (start : Nat) : Option Nat :=
  (List.range (cs.length + 1)).find?
    (fun i => decide (start ≤ i) && pat.isPrefixOf (cs.drop i))

/-- Largest index `≥ start` at which `pat` occurs in `cs`. -/
def findLastFrom (pat cs : List Char) (start : Nat) : Option Nat :=
  ((List.range (cs.length + 1)).filter
    (fun i => decide (start ≤ i) && pat.isPrefixOf (cs.drop i))).getLast?

/-- Inclusive slice `cs[i..j]`. -/
def sliceCs (cs : List Char) (i j : Nat) : List Char :=
  (cs.take (j + 1)).drop i

/-- The literal `"analysis"` including its quotes (10 characters). -/
def analysisLit : List Char := ("\"analysis\"").toList

/-- The literal `"tasks"` including its quotes (7 characters). -/
def tasksLit : List Char := ("\"tasks\"").toList

/-- First extraction regex: a greedy brace-delimited region containing
`"analysis"` and then `"tasks"`.  The leftmost match starts at the first
opening brace from which the remaining literals are still reachable (which,
by inclusion of suffixes, is the first opening brace overall when a match
exists) and, being greedy, ends at the last closing brace compatible with the
earliest positions of the two literals. -/
def matchPattern1 (output : String) : Option String :=
  let cs := output.toList
  match findFrom [braceO] cs 0 with
  | none => none
  | some i =>
    match findFrom analysisLit cs (i + 1) with
    | none => none
    | some j =>
      match findFrom tasksLit cs (j + analysisLit.length) with
      | none => none
      | some k =>
        match findLastFrom [braceC] cs (k + tasksLit.length) with
        | none => none
        | some l => some (String.mk (sliceCs cs i l))

/-- Shared shape of the two fenced-block regexes: an opening literal, an
optional newline, a lazy capture, and a closing triple backtick.  Yields
`match[1] || match[0]` (an empty capture is falsy, so the full match is
used then). -/
def fencedMatch (openLit : List Char) (cs : List Char) : Option String :=
  match findFrom openLit cs 0 with
  | none => none
  | some i =>
    let a := i + openLit.length
    let capStart := if cs.get? a = some '\n' then a + 1 else a
    match findFrom [btick, btick, btick] cs capStart with
    | none => none
    | some c =>
      let cap := (cs.take c).drop capStart
      if cap.isEmpty then some (String.mk (sliceCs cs i (c + 2)))
      else some (String.mk cap)

/-- Second extraction regex: a fenced code block tagged `json`. -/
def matchPattern2 (output : String) : Option String :=
  fencedMatch [btick, btick, btick, 'j', 's', 'o', 'n'] output.toList

/-- Third extraction regex: any fenced code block. -/
def matchPattern3 (output : String) : Option String :=
  fencedMatch [btick, btick, btick] output.toList

/-! ## Planner output parsing (core/planner.ts) -/

/-- The parsed planner output the runner consumes. -/
structure PlannerOut where
  analysis : Json
  tasks : List Json

/-- Truthiness of a planner task's `title` and `description`. -/
def taskFieldsTruthy (t : Json) : Bool :=
  jsTruthy (t.getField "title") && jsTruthy (t.getField "description")

/-- Validation applied to a candidate parsed inside the pattern loop: when
`analysis` is truthy and `tasks` is an array, keep the tasks with truthy
title and description, at most 10; otherwise fall through to the next
pattern. -/
def validateParsed (j : Json) : Option PlannerOut :=
  if jsTruthy (j.getField "analysis") then
    match j.getField "tasks" with
    | some (.arr ts) =>
      some { analysis := (j.getField "analysis").getD .null
             tasks := (ts.filter taskFieldsTruthy).take 10 }
    | _ => none
  else none

/-- Outcome of the pattern loop: a thrown `JSON.parse` error aborts the whole
function, a validated match returns, and anything else falls through. -/
inductive PatternPhase where
  | thrown
  | matched (po : PlannerOut)
  | fallthrough

/-- The pattern loop of `parsePlannerOutput`: for each matching pattern,
parse the extracted string (a parse error throws out of the loop); a parsed
value failing validation falls through to the next pattern. -/
def runPatterns : List (Option String) → PatternPhase
  | [] => .fallthrough
  | none :: rest => runPatterns rest
  | some jsonStr :: rest =>
    match jsonParse jsonStr with
    | none => .thrown
    | some j =>
      match validateParsed j with
      | some po => .matched po
      | none => runPatterns rest

/-- The extraction attempts, in source order. -/
def patternMatchers (output : String) : List (Option String) :=
  [matchPattern1 output, matchPattern2 output, matchPattern3 output]

/-- Model of `parsePlannerOutput`: the pattern loop, then a direct
`JSON.parse` of the entire output.  Note the direct branch returns the
parsed object as-is: its `tasks` are neither filtered nor truncated. -/
def parsePlannerOutput (output : String) : Option PlannerOut :=
  match runPatterns (patternMatchers output) with
  | .thrown => none
  | .matched po => some po
  | .fallthrough =>
    match jsonParse output with
    | none => none
    | some d =>
      if jsTruthy (d.getField "analysis") then
        match d.getField "tasks" with
        | some (.arr ts) =>
          some { analysis := (d.getField "analysis").getD .null, tasks := ts }
        | _ => none
      else none

/-- The planner run's task creation step: one Task record per element of the
parsed `tasks` (via `createTask taskOutput.title taskOutput.description
"planner" taskOutput.files`); a parse failure creates nothing. -/
def plannerCreatedTasks (output : String) : List Json :=
  match parsePlannerOutput output with
  | none => []
  | some po => po.tasks

/-! ## Definitions transcribed from the specification's words

These are deliberately written from the spec (not the source), to be compared
with the source-derived definitions above. -/

/-- Spec §4.3 policy row, as the quintuple
(retry?, cooldown, max_retries, allow_failover, action). -/
def specPolicyRow : ErrorCategory → Bool × ℚ × Nat × Bool × String
  | .rate_limit => (false, 45, 0, true, "reassign")
  | .timeout => (true, 0, 2, true, "retry")
  | .crash => (true, 1, 3, true, "retry")
  | .invalid_output => (true, 0, 2, false, "retry")
  | .git_conflict => (true, 0, 2, false, "retry")
  | .permission => (false, 0, 0, false, "fail")
  | .network => (true, 1 / 2, 5, false, "retry")
  | .unknown => (true, 1, 1, true, "retry")

/-- The spec's policy table assembled into a handler record. -/
def specErrorPolicy (c : ErrorCategory) : ErrorHandler :=
  let row := specPolicyRow c
  { category := c
    retry := row.1
    cooldown_minutes := row.2.1
    max_retries := row.2.2.1
    fallback_to_other_agent := row.2.2.2.1
    action := row.2.2.2.2 }

/-- Whether the lower-cased output matches any pattern of a rule row. -/
def matchAny (lower : String) (pats : List String) : Bool :=
  pats.any (fun p => sIncludes lower p)

/-- The classifier exactly as claim C4 states it: the spec's rule table with
network patterns
{connection refused, connection reset, name resolution failed, fetch failed}. -/
def claimDetectError (output : String) (exitCode : Int) : ErrorCategory :=
  let lower := jsToLower output
  if matchAny lower ["rate limit", "too many requests", "quota exceeded",
      "429", "ratelimit"] then .rate_limit
  else if exitCode = 124 || matchAny lower ["timed out", "timeout"] then .timeout
  else if matchAny lower ["permission denied", "access denied",
      "unauthorized"] then .permission
  else if matchAny lower ["connection refused", "connection reset",
      "name resolution failed", "fetch failed"] then .network
  else if matchAny lower ["conflict", "merge conflict", "cannot merge"] then
    .git_conflict
  else if exitCode ≠ 0 && !(sIncludes lower "error") then .crash
  else .unknown

/-- The classifier table as amended to the source's pattern lists (the
network row is {enotfound, econnrefused, econnreset, network error,
connection refused, fetch failed}, and the source additionally recognises
`rate_limit` and `eacces`). -/
def amendedDetectError (output : String) (exitCode : Int) : ErrorCategory :=
  let lower := jsToLower output
  if matchAny lower ["rate limit", "too many requests", "quota exceeded",
      "429", "rate_limit", "ratelimit"] then .rate_limit
  else if exitCode = 124 || matchAny lower ["timed out", "timeout"] then .timeout
  else if matchAny lower ["permission denied", "eacces", "access denied",
      "unauthorized"] then .permission
  else if matchAny lower ["enotfound", "econnrefused", "econnreset",
      "network error", "connection refused", "fetch failed"] then .network
  else if matchAny lower ["conflict", "merge conflict", "cannot merge"] then
    .git_conflict
  else if exitCode ≠ 0 && !(sIncludes lower "error") then .crash
  else .unknown

/-- The Judge heuristic exactly as claim C3 states it ("all tasks are
terminal" reads `completed + failed = total`). -/
def claimHeuristicDecision (stats : JudgeStats) (cycleCurrent cycleMax : Nat) :
    JudgeDecision :=
  if cycleMax ≤ cycleCurrent then .ABORT
  else if stats.completed + stats.failed = stats.total ∧ stats.failed = 0 ∧
      0 < stats.completed then .COMPLETE
  else if (1 : ℚ) / 2 < (stats.failed : ℚ) / (stats.total : ℚ) then .ABORT
  else .CONTINUE

/-- The Judge heuristic as amended: the COMPLETE guard requires no pending
task (rather than all tasks terminal). -/
def amendedHeuristicDecision (stats : JudgeStats) (cycleCurrent cycleMax : Nat) :
    JudgeDecision :=
  if cycleMax ≤ cycleCurrent then .ABORT
  else if stats.pending = 0 ∧ stats.failed = 0 ∧ 0 < stats.completed then .COMPLETE
  else if (1 : ℚ) / 2 < (stats.failed : ℚ) / (stats.total : ℚ) then .ABORT
  else .CONTINUE

/-- The selection score exactly as the spec states it:
`success_rate / max(1, mean_duration)`. -/
def specHealthScore (s : AgentState) : ℚ :=
  s.health.success_rate / max 1 s.health.avg_task_duration_ms

/-! ## Concrete sample values used by counterexamples and witnesses -/

/-- A fresh pending sample task. -/
def sampleTask : Task := createTask "t" "d" "planner" [] 3 "task-1" "ts0"

/-- A second fresh pending sample task. -/
def sampleTask2 : Task := createTask "u" "e" "planner" [] 3 "task-2" "ts0"

/-- An agent state with the given status, success rate, mean duration and
cooldown deadline. -/
def mkAgentState (status : AgentStatus) (rate avg : ℚ) (avail : Option Nat) :
    AgentState :=
  { createInitialAgentState with
    status := status
    available_at := avail
    health :=
      { consecutive_failures := 0, success_rate := rate
        avg_task_duration_ms := avg } }

/-- Pool on which the source's score `rate / (avg || 1)` and the spec's score
`rate / max(1, avg)` rank the agents differently: codex has code score 1 but
spec score 1/2, claude has score 3/4 under both. -/
def poolScoreCE : AgentPool :=
  { claude := mkAgentState .available (3 / 4) 1 none
    codex := mkAgentState .available (1 / 2) (1 / 2) none
    opencode := mkAgentState .errored 1 0 none }

/-- Planner output whose only parse route is the direct whole-output
`JSON.parse`: the object lists `tasks` before `analysis`, so the first
extraction regex cannot match, and there are no fenced blocks. -/
def plannerOut11 : String :=
  "\x7b\"tasks\":[\x7b\x7d,\x7b\x7d,\x7b\x7d,\x7b\x7d,\x7b\x7d,\x7b\x7d,\x7b\x7d,\x7b\x7d,\x7b\x7d,\x7b\x7d,\x7b\x7d],\"analysis\":true\x7d"

/-! ## Agent pool record operations (for the success-rate invariant) -/

/-- One success or failure record on an agent kind (failure with the initial
pool's `max_consecutive_failures = 3`). -/
inductive PoolRecordOp where
  | success (durationMs : ℚ)
  | failure (category : ErrorCategory) (now : Nat)
deriving DecidableEq

/-- Apply one record operation. -/
def applyRecord (s : AgentState) : PoolRecordOp → AgentState
  | .success d => recordAgentSuccess s d
  | .failure c now => recordAgentFailure s c now 3

/-- Apply a sequence of record operations. -/
def applyRecords (s : AgentState) (ops : List PoolRecordOp) : AgentState :=
  ops.foldl applyRecord s

/-- The success-rate bookkeeping invariant of the spec's data model. -/
def successRateInv (s : AgentState) : Prop :=
  s.health.success_rate =
    (s.stats.tasks_completed : ℚ) /
      ((s.stats.tasks_completed : ℚ) + (s.stats.tasks_failed : ℚ))

lemma applyRecord_rate (s : AgentState) (op : PoolRecordOp) :
    successRateInv (applyRecord s op) := by
  cases op with
  | success d =>
    simp only [applyRecord, recordAgentSuccess, successRateInv]
    push_cast
    ring_nf
  | failure c now =>
    simp only [applyRecord, recordAgentFailure, successRateInv]
    push_cast
    ring_nf

lemma applyRecords_rate : ∀ (ops : List PoolRecordOp) (s : AgentState),
    ops ≠ [] → successRateInv (applyRecords s ops) := by
  intro ops
  induction ops with
  | nil => intro s h; exact absurd rfl h
  | cons a l ih =>
    intro s _
    cases l with
    | nil => simpa [applyRecords] using applyRecord_rate s a
    | cons b m => simpa [applyRecords] using ih (applyRecord s a) (by simp)

/-! ## Claims -/

/-- C3 counterexample: with stats (completed 1, failed 0, pending 0, total 2)
— one completed task and one `in_progress` task, so not all tasks are
terminal — at cycle 1 of 10 the source's heuristic returns COMPLETE while the
claim's rule (all terminal, none failed, one completed) falls through to
CONTINUE. -/
theorem heuristic_all_terminal_counterexample :
    heuristicDecision ⟨1, 0, 0, 2⟩ 1 10 = JudgeDecision.COMPLETE ∧
    claimHeuristicDecision ⟨1, 0, 0, 2⟩ 1 10 = JudgeDecision.CONTINUE := by
  constructor
  · norm_num [heuristicDecision]
  · norm_num [claimHeuristicDecision]

/-- C3 (amended): the Judge heuristic fallback is a total function computing,
in order: if current_cycle ≥ max_cycles then ABORT; else if no task is
pending, none failed and at least one completed then COMPLETE; else if
failed / total > 0.5 then ABORT; else CONTINUE. -/
theorem heuristic_decision_amended :
    ∀ stats cycleCurrent cycleMax,
      heuristicDecision stats cycleCurrent cycleMax =
        amendedHeuristicDecision stats cycleCurrent cycleMax := by
  intro s c m
  unfold heuristicDecision amendedHeuristicDecision
  by_cases h1 : m ≤ c
  · simp [h1]
  · simp only [if_neg h1]
    by_cases h2 : s.pending = 0 ∧ s.failed = 0 ∧ 0 < s.completed
    · simp [h2]
    · simp only [if_neg h2]
      by_cases h3 : 0 < s.total
      · simp [h3]
      · have ht : s.total = 0 := Nat.eq_zero_of_not_pos h3
        simp only [ht, Nat.cast_zero, div_zero, ht, lt_self_iff_false,
          false_and, if_false, h3]
        norm_num

/-- C4 counterexample: on output "connection reset" with exit code 1 the
source classifier returns `crash` (its network row tests `econnreset`, not
the plain text), while the claim's table — whose network row is
{connection refused, connection reset, name resolution failed, fetch failed}
— yields `network`. -/
theorem detect_error_network_counterexample :
    detectError "connection reset" 1 = ErrorCategory.crash ∧
    claimDetectError "connection reset" 1 = ErrorCategory.network := by
  decide

/-- C4 (amended): the error classifier is a pure function of
(output, exit_code) equal to the first-hit rule table whose network row is
{enotfound, econnrefused, econnreset, network error, connection refused,
fetch failed} (and whose rate-limit and permission rows additionally contain
`rate_limit` and `eacces`). -/
theorem detect_error_amended :
    ∀ output exitCode,
      detectError output exitCode = amendedDetectError output exitCode := by
  intro output exitCode
  simp only [detectError, amendedDetectError, matchAny, List.any_cons,
    List.any_nil, Bool.or_false, Bool.or_assoc]

/-- C5: the per-category error policy table coincides exactly with the table
fixed by the spec, and `should_reassign` returns false whenever the agent
history has length at least 3 and otherwise the table's allow_failover
flag. -/
theorem error_policy_table_exact :
    (∀ c, ERROR_HANDLERS c = specErrorPolicy c) ∧
    (∀ c n, shouldReassign c n =
      if 3 ≤ n then false else (specErrorPolicy c).fallback_to_other_agent) := by
  constructor
  · intro c; cases c <;> rfl
  · intro c n
    unfold shouldReassign
    split
    · rfl
    · cases c <;> rfl

/-- C6 counterexample: at the freshly initialized pool each kind's
success_rate is 1.0 while tasks_completed / (tasks_completed + tasks_failed)
is 0/0 — no number at all in JavaScript (NaN), and 0 under the rational
convention — so the claimed equality fails at that observable point. -/
theorem success_rate_initial_counterexample :
    createInitialAgentState.health.success_rate = 1 ∧
    ((createInitialAgentState.stats.tasks_completed : ℚ) /
      ((createInitialAgentState.stats.tasks_completed : ℚ) +
        (createInitialAgentState.stats.tasks_failed : ℚ))) = 0 ∧
    (1 : ℚ) ≠ 0 := by
  refine ⟨rfl, ?_, by norm_num⟩
  simp [createInitialAgentState]

/-- C6 (amended): each kind's success_rate equals
tasks_completed / (tasks_completed + tasks_failed) after every record of
success or failure — hence at every observable point reached by at least one
record — while the freshly initialized pool carries success_rate 1 (the
ratio being 0/0 there). -/
theorem success_rate_invariant_amended :
    createInitialAgentState.health.success_rate = 1 ∧
    (∀ s op, successRateInv (applyRecord s op)) ∧
    (∀ ops, ops ≠ [] → successRateInv (applyRecords createInitialAgentState ops)) := by
  exact ⟨rfl, applyRecord_rate, fun ops h => applyRecords_rate ops _ h⟩

/-- Witness for the amended C6 at the concrete record list [success 100]. -/
theorem success_rate_invariant_amended_witness :
    successRateInv (applyRecords createInitialAgentState [PoolRecordOp.success 100]) :=
  success_rate_invariant_amended.2.2 [PoolRecordOp.success 100] (by decide)

/-- C9 helper: after `n` completions the counter holds `n % threshold`. -/
lemma wakeupCounter_mod (T : Nat) (hT : 1 ≤ T) : ∀ n, wakeupCounter T n = n % T := by
  intro n
  induction n with
  | zero => simp [wakeupCounter]
  | succ n ih =>
    have hlt : n % T < T := Nat.mod_lt n hT
    simp only [wakeupCounter, wakeupStep, ih]
    by_cases h : T ≤ n % T + 1
    · have h2 : n % T + 1 = T := le_antisymm (Nat.succ_le_of_lt hlt) h
      rw [if_pos h]
      rw [← Nat.mod_add_mod, h2, Nat.mod_self]
    · have hlt2 : n % T + 1 < T := lt_of_not_ge h
      rw [if_neg h]
      rw [← Nat.mod_add_mod, Nat.mod_eq_of_lt hlt2]

/-- C9: for every threshold T ≥ 1 and every stream of `task:completed`
events on an enabled controller without manual triggers, the counter after n
events is `n % T`; the (n+1)-st event publishes a wakeup exactly when the
count of completions since the last wakeup reaches T; publishing resets the
counter to zero; and with T = 1 every completed task publishes a wakeup. -/
theorem wakeup_threshold_behavior :
    ∀ T, 1 ≤ T →
      (∀ n, wakeupCounter T n = n % T) ∧
      (∀ n, wakeupPublishes T (n + 1) = true ↔ wakeupCounter T n + 1 = T) ∧
      (∀ n, wakeupPublishes T (n + 1) = true → wakeupCounter T (n + 1) = 0) ∧
      (T = 1 → ∀ n, wakeupPublishes T (n + 1) = true) := by
  intro T hT
  refine ⟨wakeupCounter_mod T hT, ?_, ?_, ?_⟩
  · intro n
    have hlt : n % T < T := Nat.mod_lt n hT
    simp only [wakeupPublishes, wakeupStep, wakeupCounter_mod T hT]
    by_cases h : T ≤ n % T + 1
    · rw [if_pos h]
      constructor
      · intro _; omega
      · intro _; rfl
    · rw [if_neg h]
      constructor
      · intro hfalse; exact absurd hfalse (by simp)
      · intro heq; exact absurd heq (by omega)
  · intro n hpub
    have hlt : n % T < T := Nat.mod_lt n hT
    simp only [wakeupPublishes, wakeupStep, wakeupCounter_mod T hT] at hpub
    by_cases h : T ≤ n % T + 1
    · rw [wakeupCounter_mod T hT]
      have h2 : n % T + 1 = T := by omega
      rw [← Nat.mod_add_mod, h2, Nat.mod_self]
    · rw [if_neg h] at hpub
      exact absurd hpub (by simp)
  · intro h1 n
    subst h1
    simp [wakeupPublishes, wakeupStep]

/-- Witness for C9 at threshold 3: among the first six events exactly the
third and sixth publish, and the counter is n % 3. -/
theorem wakeup_threshold_behavior_witness :
    wakeupCounter 3 5 = 5 % 3 ∧
    (wakeupPublishes 3 3 = true ↔ wakeupCounter 3 2 + 1 = 3) ∧
    (wakeupPublishes 1 1 = true) := by
  refine ⟨(wakeup_threshold_behavior 3 (by decide)).1 5,
    (wakeup_threshold_behavior 3 (by decide)).2.1 2,
    (wakeup_threshold_behavior 1 (by decide)).2.2.2 rfl 0⟩

/-- C10: when the worker id does not parse as an integer (`parseInt` gives
NaN), `claimTask` returns none and leaves the task list unchanged — even
when pending tasks exist; in particular the sequential orchestrator
variant's id "worker-1" never claims any task. -/
theorem claim_nonnumeric_worker_returns_none :
    (∀ tasks workerId agent now, parseIntJS workerId = none →
      claimTask tasks workerId agent now = (tasks, none)) ∧
    parseIntJS "worker-1" = none := by
  refine ⟨?_, by decide⟩
  intro tasks workerId agent now h
  unfold claimTask
  rw [h]
  split
  · simp
  · next k heq => exact absurd heq (by simp)

/-- Witness for C10: with one pending task in the store, the worker id
"worker-1" claims nothing and the store is unchanged. -/
theorem claim_nonnumeric_worker_returns_none_witness :
    claimTask [sampleTask] "worker-1" AgentType.claude "t1" = ([sampleTask], none) :=
  claim_nonnumeric_worker_returns_none.1 [sampleTask] "worker-1" AgentType.claude "t1"
    (by decide)

/-- The pending sublist, in store order. -/
def pendingOf (tasks : List Task) : List Task :=
  tasks.filter (fun t => decide (t.status = TaskStatus.pending))

lemma updateNthPending_spec (f : Task → Task) :
    ∀ (tasks : List Task) (j : Nat), j < (pendingOf tasks).length →
      ∃ i t, tasks.get? i = some t ∧ (pendingOf tasks).get? j = some t ∧
        (updateNthPending f tasks j).get? i = some (f t) ∧
        ∀ i', i' ≠ i → (updateNthPending f tasks j).get? i' = tasks.get? i' := by
  intro tasks
  induction tasks with
  | nil => intro j h; simp [pendingOf] at h
  | cons t rest ih =>
    intro j hj
    by_cases hp : t.status = TaskStatus.pending
    · cases j with
      | zero =>
        refine ⟨0, t, rfl, ?_, ?_, ?_⟩
        · simp [pendingOf, hp]
        · simp [updateNthPending, hp]
        · intro i' hne
          cases i' with
          | zero => exact absurd rfl hne
          | succ i => simp [updateNthPending, hp]
      | succ j =>
        have hj' : j < (pendingOf rest).length := by
          simp [pendingOf, hp] at hj ⊢
          omega
        obtain ⟨i, u, hu1, hu2, hu3, hu4⟩ := ih j hj'
        refine ⟨i + 1, u, by simpa using hu1, ?_, ?_, ?_⟩
        · simpa [pendingOf, hp] using hu2
        · simpa [updateNthPending, hp] using hu3
        · intro i' hne
          cases i' with
          | zero => simp [updateNthPending, hp]
          | succ i2 =>
            simp only [updateNthPending, hp, if_pos, List.get?_cons_succ]
            exact hu4 i2 (fun he => hne (by rw [he]))
    · have hj' : j < (pendingOf rest).length := by
        simpa [pendingOf, hp] using hj
      obtain ⟨i, u, hu1, hu2, hu3, hu4⟩ := ih j hj'
      refine ⟨i + 1, u, by simpa using hu1, ?_, ?_, ?_⟩
      · simpa [pendingOf, hp] using hu2
      · simpa [updateNthPending, hp] using hu3
      · intro i' hne
        cases i' with
        | zero => simp [updateNthPending, hp]
        | succ i2 =>
          simp only [updateNthPending, hp, if_neg, List.get?_cons_succ]
          exact hu4 i2 (fun he => hne (by rw [he]))

lemma claimTask_success (tasks : List Task) (workerId : String)
    (agent : AgentType) (now : String) (k : Nat) (t0 : Task)
    (hk : parseIntJS workerId = some ((k : Int) + 1))
    (hget : (pendingOf tasks).get? (k % (pendingOf tasks).length) = some t0) :
    claimTask tasks workerId agent now =
      (updateNthPending (claimUpdate workerId agent now) tasks
        (k % (pendingOf tasks).length),
       some (claimUpdate workerId agent now t0)) := by
  have hne : pendingOf tasks ≠ [] := by
    intro he
    rw [he] at hget
    simp at hget
  have hlen : (pendingOf tasks).length ≠ 0 :=
    fun h => hne (List.length_eq_zero.mp h)
  have hrem : jsRem ((k : Int) + 1 - 1) (pendingOf tasks).length =
      ((k % (pendingOf tasks).length : Nat) : Int) := by
    unfold jsRem
    rw [if_pos (by omega)]
    rw [Int.natCast_mod]
    norm_num
  simp only [claimTask, hk, pendingOf] at hlen hrem hget ⊢
  rw [if_neg hlen, hrem, if_pos (Int.natCast_nonneg _), Int.toNat_natCast, hget]

/-- C1: for every task list, worker whose id parses to the positive integer
k + 1 (ordinal k), agent kind and timestamp: when no task is pending, claim
returns none and the store is unchanged; otherwise the claimed task is
exactly the pending task at index k mod n (n the number of pending tasks),
it is returned moved to in_progress with assigned_agent, worker_id and
started_at set and attempts incremented by exactly one, and the stored list
is the old one with exactly that task so updated and every other position
unchanged. -/
theorem claim_selects_by_worker_ordinal :
    ∀ (tasks : List Task) (workerId : String) (agent : AgentType)
      (now : String) (k : Nat),
      parseIntJS workerId = some ((k : Int) + 1) →
      (pendingOf tasks = [] → claimTask tasks workerId agent now = (tasks, none)) ∧
      (∀ t0, (pendingOf tasks).get? (k % (pendingOf tasks).length) = some t0 →
        (claimTask tasks workerId agent now).2 =
          some (claimUpdate workerId agent now t0) ∧
        (claimUpdate workerId agent now t0).status = TaskStatus.in_progress ∧
        (claimUpdate workerId agent now t0).assigned_agent = some agent ∧
        (claimUpdate workerId agent now t0).worker_id = some workerId ∧
        (claimUpdate workerId agent now t0).started_at = some now ∧
        (claimUpdate workerId agent now t0).attempts = t0.attempts + 1 ∧
        ∃ i, tasks.get? i = some t0 ∧
          (claimTask tasks workerId agent now).1.get? i =
            some (claimUpdate workerId agent now t0) ∧
          ∀ i', i' ≠ i →
            (claimTask tasks workerId agent now).1.get? i' = tasks.get? i') := by
  intro tasks workerId agent now k hk
  constructor
  · intro hempty
    have h0 : (List.filter (fun t => decide (t.status = TaskStatus.pending))
        tasks).length = 0 := by
      have := congrArg List.length hempty
      simpa [pendingOf] using this
    simp only [claimTask]
    rw [if_pos h0]
  · intro t0 hget
    have hlt : k % (pendingOf tasks).length < (pendingOf tasks).length := by
      obtain ⟨h, -⟩ := List.get?_eq_some.mp hget
      exact h
    have hcl := claimTask_success tasks workerId agent now k t0 hk hget
    obtain ⟨i, u, hu1, hu2, hu3, hu4⟩ :=
      updateNthPending_spec (claimUpdate workerId agent now) tasks
        (k % (pendingOf tasks).length) hlt
    have hut : u = t0 := by
      rw [hget] at hu2
      exact (Option.some.inj hu2).symm
    subst hut
    refine ⟨by rw [hcl], rfl, rfl, rfl, rfl, rfl, i, hu1, ?_, ?_⟩
    · rw [hcl]; exact hu3
    · intro i' hne
      rw [hcl]
      exact hu4 i' hne

/-- Witness for C1: in a store with two pending tasks, worker "2" (ordinal 1)
claims the second pending task. -/
theorem claim_selects_by_worker_ordinal_witness :
    (claimTask [sampleTask, sampleTask2] "2" AgentType.claude "t1").2 =
      some (claimUpdate "2" AgentType.claude "t1" sampleTask2) :=
  ((claim_selects_by_worker_ordinal [sampleTask, sampleTask2] "2"
    AgentType.claude "t1" 1 (by decide)).2 sampleTask2 (by decide)).1

/-! ## Task store invariants (claim C7) -/

/-- Per-task worker-assignment invariant: a pending task has no worker id, an
in-progress task has one. -/
def TaskInvT (t : Task) : Prop :=
  (t.status = TaskStatus.pending → t.worker_id = none) ∧
  (t.status = TaskStatus.in_progress → t.worker_id ≠ none)

/-- The store-wide invariant. -/
def TaskInv (tasks : List Task) : Prop := ∀ t ∈ tasks, TaskInvT t

/-- Attempts never decrease, position by position. -/
def attemptsMono (ts ts' : List Task) : Prop :=
  ∀ i t t', ts.get? i = some t → ts'.get? i = some t' →
    t.attempts ≤ t'.attempts

lemma mem_updateFirstById (taskId : String) (f : Task → Task) :
    ∀ (ts : List Task) (x : Task), x ∈ updateFirstById taskId f ts →
      x ∈ ts ∨ ∃ t ∈ ts, x = f t := by
  intro ts
  induction ts with
  | nil => intro x h; simp [updateFirstById] at h
  | cons t rest ih =>
    intro x h
    simp only [updateFirstById] at h
    by_cases hid : t.id = taskId
    · rw [if_pos hid] at h
      rcases List.mem_cons.mp h with h1 | h2
      · exact Or.inr ⟨t, List.mem_cons_self t rest, h1⟩
      · exact Or.inl (List.mem_cons_of_mem t h2)
    · rw [if_neg hid] at h
      rcases List.mem_cons.mp h with h1 | h2
      · exact Or.inl (h1 ▸ List.mem_cons_self t rest)
      · rcases ih x h2 with ha | ⟨u, hu, hx⟩
        · exact Or.inl (List.mem_cons_of_mem t ha)
        · exact Or.inr ⟨u, List.mem_cons_of_mem t hu, hx⟩

lemma mem_updateNthPending (f : Task → Task) :
    ∀ (ts : List Task) (j : Nat) (x : Task), x ∈ updateNthPending f ts j →
      x ∈ ts ∨ ∃ t ∈ ts, t.status = TaskStatus.pending ∧ x = f t := by
  intro ts
  induction ts with
  | nil => intro j x h; simp [updateNthPending] at h
  | cons t rest ih =>
    intro j x h
    by_cases hp : t.status = TaskStatus.pending
    · cases j with
      | zero =>
        simp only [updateNthPending] at h
        rw [if_pos hp] at h
        rcases List.mem_cons.mp h with h1 | h2
        · exact Or.inr ⟨t, List.mem_cons_self t rest, hp, h1⟩
        · exact Or.inl (List.mem_cons_of_mem t h2)
      | succ j =>
        simp only [updateNthPending] at h
        rw [if_pos hp] at h
        rcases List.mem_cons.mp h with h1 | h2
        · exact Or.inl (h1 ▸ List.mem_cons_self t rest)
        · rcases ih j x h2 with ha | ⟨u, hu, hup, hx⟩
          · exact Or.inl (List.mem_cons_of_mem t ha)
          · exact Or.inr ⟨u, List.mem_cons_of_mem t hu, hup, hx⟩
    · simp only [updateNthPending] at h
      rw [if_neg hp] at h
      rcases List.mem_cons.mp h with h1 | h2
      · exact Or.inl (h1 ▸ List.mem_cons_self t rest)
      · rcases ih j x h2 with ha | ⟨u, hu, hup, hx⟩
        · exact Or.inl (List.mem_cons_of_mem t ha)
        · exact Or.inr ⟨u, List.mem_cons_of_mem t hu, hup, hx⟩

lemma claimTask_fst_mem (ts : List Task) (w : String) (a : AgentType)
    (now : String) (x : Task) (h : x ∈ (claimTask ts w a now).1) :
    x ∈ ts ∨ ∃ t ∈ ts, t.status = TaskStatus.pending ∧
      x = claimUpdate w a now t := by
  simp only [claimTask] at h
  split at h
  · exact Or.inl h
  · split at h
    · exact Or.inl h
    · split at h
      · split at h
        · exact Or.inl h
        · rcases mem_updateNthPending _ ts _ x h with h1 | ⟨t, ht, hp, hx⟩
          · exact Or.inl h1
          · exact Or.inr ⟨t, ht, hp, hx⟩
      · exact Or.inl h

lemma taskInv_applyOp (ts : List Task) (op : TaskOp) (h : TaskInv ts) :
    TaskInv (applyOp ts op) := by
  cases op with
  | add title d c files m id now =>
    intro x hx
    simp only [applyOp] at hx
    rcases List.mem_append.mp hx with h1 | h2
    · exact h x h1
    · have hx2 : x = createTask title d c files m id now := by simpa using h2
      subst hx2
      exact ⟨fun _ => rfl, fun habs => absurd habs (by simp [createTask])⟩
  | claim w a now =>
    intro x hx
    rcases claimTask_fst_mem ts w a now x hx with h1 | ⟨t, _, _, hx2⟩
    · exact h x h1
    · subst hx2
      exact ⟨fun habs => absurd habs (by simp [claimUpdate]), fun _ => by
        simp [claimUpdate]⟩
  | complete tid a now =>
    intro x hx
    rcases mem_updateFirstById tid _ ts x hx with h1 | ⟨t, _, hx2⟩
    · exact h x h1
    · subst hx2
      exact ⟨fun habs => absurd habs (by simp), fun habs => absurd habs (by simp)⟩
  | recordError tid err now =>
    intro x hx
    rcases mem_updateFirstById tid _ ts x hx with h1 | ⟨t, ht, hx2⟩
    · exact h x h1
    · subst hx2
      exact ⟨(h t ht).1, (h t ht).2⟩
  | release tid =>
    intro x hx
    rcases mem_updateFirstById tid _ ts x hx with h1 | ⟨t, _, hx2⟩
    · exact h x h1
    · subst hx2
      exact ⟨fun _ => rfl, fun habs => absurd habs (by simp)⟩
  | markFailed tid now =>
    intro x hx
    rcases mem_updateFirstById tid _ ts x hx with h1 | ⟨t, _, hx2⟩
    · exact h x h1
    · subst hx2
      exact ⟨fun habs => absurd habs (by simp), fun habs => absurd habs (by simp)⟩
  | releaseStuck =>
    intro x hx
    simp only [applyOp, releaseStuckTasks] at hx
    rcases List.mem_map.mp hx with ⟨t, ht, hx2⟩
    by_cases hs : t.status = TaskStatus.in_progress
    · rw [if_pos hs] at hx2
      subst hx2
      exact ⟨fun _ => rfl, fun habs => absurd habs (by simp)⟩
    · rw [if_neg hs] at hx2
      subst hx2
      exact h t ht

lemma taskInv_applyOps : ∀ (ops : List TaskOp) (acc : List Task),
    TaskInv acc → TaskInv (ops.foldl applyOp acc) := by
  intro ops
  induction ops with
  | nil => intro acc h; exact h
  | cons op rest ih =>
    intro acc h
    exact ih (applyOp acc op) (taskInv_applyOp acc op h)

lemma updateFirstById_get? (taskId : String) (f : Task → Task) :
    ∀ (ts : List Task) (i : Nat),
      (updateFirstById taskId f ts).get? i = ts.get? i ∨
      ∃ t, ts.get? i = some t ∧ (updateFirstById taskId f ts).get? i = some (f t) := by
  intro ts
  induction ts with
  | nil => intro i; left; simp [updateFirstById]
  | cons t rest ih =>
    intro i
    by_cases hid : t.id = taskId
    · rw [updateFirstById, if_pos hid]
      cases i with
      | zero => exact Or.inr ⟨t, rfl, rfl⟩
      | succ i => left; simp
    · rw [updateFirstById, if_neg hid]
      cases i with
      | zero => left; rfl
      | succ i =>
        rcases ih i with h1 | ⟨u, hu1, hu2⟩
        · left; simpa using h1
        · exact Or.inr ⟨u, by simpa using hu1, by simpa using hu2⟩

lemma updateNthPending_get? (f : Task → Task) :
    ∀ (ts : List Task) (j i : Nat),
      (updateNthPending f ts j).get? i = ts.get? i ∨
      ∃ t, ts.get? i = some t ∧ (updateNthPending f ts j).get? i = some (f t) := by
  intro ts
  induction ts with
  | nil => intro j i; left; simp [updateNthPending]
  | cons t rest ih =>
    intro j i
    by_cases hp : t.status = TaskStatus.pending
    · cases j with
      | zero =>
        simp only [updateNthPending]
        rw [if_pos hp]
        cases i with
        | zero => exact Or.inr ⟨t, rfl, rfl⟩
        | succ i => left; simp
      | succ j =>
        simp only [updateNthPending]
        rw [if_pos hp]
        cases i with
        | zero => left; rfl
        | succ i =>
          rcases ih j i with h1 | ⟨u, hu1, hu2⟩
          · left; simpa using h1
          · exact Or.inr ⟨u, by simpa using hu1, by simpa using hu2⟩
    · simp only [updateNthPending]
      rw [if_neg hp]
      cases i with
      | zero => left; rfl
      | succ i =>
        rcases ih j i with h1 | ⟨u, hu1, hu2⟩
        · left; simpa using h1
        · exact Or.inr ⟨u, by simpa using hu1, by simpa using hu2⟩

lemma claimTask_fst_get? (ts : List Task) (w : String) (a : AgentType)
    (now : String) (i : Nat) :
    (claimTask ts w a now).1.get? i = ts.get? i ∨
    ∃ t, ts.get? i = some t ∧
      (claimTask ts w a now).1.get? i = some (claimUpdate w a now t) := by
  simp only [claimTask]
  split
  · left; rfl
  · split
    · left; rfl
    · split
      · split
        · left; rfl
        · exact updateNthPending_get? _ ts _ i
      · left; rfl

lemma attemptsMono_updateFirstById (taskId : String) (f : Task → Task)
    (ts : List Task) (hf : ∀ t, (f t).attempts = t.attempts) :
    attemptsMono ts (updateFirstById taskId f ts) := by
  intro i t t' h1 h2
  rcases updateFirstById_get? taskId f ts i with he | ⟨u, hu1, hu2⟩
  · rw [he, h1] at h2
    exact le_of_eq (congrArg Task.attempts (Option.some.inj h2))
  · rw [h1] at hu1
    have hut : u = t := (Option.some.inj hu1).symm
    rw [hu2] at h2
    have ht' : t' = f u := (Option.some.inj h2).symm
    rw [ht', hf, hut]

lemma attemptsMono_applyOp (ts : List Task) (op : TaskOp) :
    attemptsMono ts (applyOp ts op) := by
  cases op with
  | add title d c files m id now =>
    intro i t t' h1 h2
    simp only [applyOp] at h2
    obtain ⟨hlt, -⟩ := List.get?_eq_some.mp h1
    rw [List.get?_append hlt, h1] at h2
    exact le_of_eq (congrArg Task.attempts (Option.some.inj h2))
  | claim w a now =>
    intro i t t' h1 h2
    have h2' : (claimTask ts w a now).1.get? i = some t' := h2
    rcases claimTask_fst_get? ts w a now i with he | ⟨u, hu1, hu2⟩
    · rw [he, h1] at h2'
      exact le_of_eq (congrArg Task.attempts (Option.some.inj h2'))
    · rw [hu2] at h2'
      rw [h1] at hu1
      have hut : u = t := (Option.some.inj hu1).symm
      have ht' : t' = claimUpdate w a now u := (Option.some.inj h2').symm
      rw [ht', hut]
      exact Nat.le_succ t.attempts
  | complete tid a now =>
    exact attemptsMono_updateFirstById tid _ ts (fun t => rfl)
  | recordError tid err now =>
    exact attemptsMono_updateFirstById tid _ ts (fun t => rfl)
  | release tid =>
    exact attemptsMono_updateFirstById tid _ ts (fun t => rfl)
  | markFailed tid now =>
    exact attemptsMono_updateFirstById tid _ ts (fun t => rfl)
  | releaseStuck =>
    intro i t t' h1 h2
    simp only [applyOp, releaseStuckTasks] at h2
    rw [List.get?_map, h1] at h2
    have ht' : t' = if t.status = TaskStatus.in_progress then
        { t with status := TaskStatus.pending, assigned_agent := none,
                 worker_id := none } else t := (Option.some.inj h2).symm
    by_cases hs : t.status = TaskStatus.in_progress
    · rw [ht', if_pos hs]
    · rw [ht', if_neg hs]

lemma claimTask_claimed_was_pending (ts : List Task) (w : String)
    (a : AgentType) (now : String) (t' : Task)
    (h : (claimTask ts w a now).2 = some t') :
    ∃ t0 ∈ ts, t0.status = TaskStatus.pending ∧ t' = claimUpdate w a now t0 := by
  simp only [claimTask] at h
  split at h
  · simp at h
  · split at h
    · simp at h
    · split at h
      · split at h
        · simp at h
        · next t0 heq =>
          have ht' : t' = claimUpdate w a now t0 := by simpa using h.symm
          have hmem : t0 ∈ List.filter
              (fun t => decide (t.status = TaskStatus.pending)) ts :=
            List.get?_mem heq
          have hm := List.mem_filter.mp hmem
          exact ⟨t0, hm.1, by simpa using hm.2, ht'⟩
      · simp at h

lemma updateNthPending_mem_of_nonpending (f : Task → Task) :
    ∀ (ts : List Task) (j : Nat) (t : Task), t ∈ ts →
      t.status ≠ TaskStatus.pending → t ∈ updateNthPending f ts j := by
  intro ts
  induction ts with
  | nil => intro j t h; simp at h
  | cons u rest ih =>
    intro j t ht hnp
    rcases List.mem_cons.mp ht with h1 | h2
    · subst h1
      simp only [updateNthPending]
      rw [if_neg hnp]
      exact List.mem_cons_self _ _
    · by_cases hp : u.status = TaskStatus.pending
      · cases j with
        | zero =>
          simp only [updateNthPending]
          rw [if_pos hp]
          exact List.mem_cons_of_mem _ h2
        | succ j =>
          simp only [updateNthPending]
          rw [if_pos hp]
          exact List.mem_cons_of_mem _ (ih j t h2 hnp)
      · simp only [updateNthPending]
        rw [if_neg hp]
        exact List.mem_cons_of_mem _ (ih j t h2 hnp)

lemma claimTask_preserves_nonpending (ts : List Task) (w : String)
    (a : AgentType) (now : String) (t : Task) (ht : t ∈ ts)
    (hnp : t.status ≠ TaskStatus.pending) : t ∈ (claimTask ts w a now).1 := by
  simp only [claimTask]
  split
  · exact ht
  · split
    · exact ht
    · split
      · split
        · exact ht
        · exact updateNthPending_mem_of_nonpending _ ts _ t ht hnp
      · exact ht

/-- C7: under every sequence of Task Store operations starting from the
empty store, every task has exactly one status; every pending task has no
worker id and every in-progress task has one; each single operation never
decreases any task's attempts counter (position by position); every task
returned by claim was pending at claim time (so a completed or failed task
is never returned by claim); and claim leaves every completed or failed
task in place untouched. -/
theorem task_store_invariants :
    (∀ ops, TaskInv (applyOps ops)) ∧
    (∀ ts op, attemptsMono ts (applyOp ts op)) ∧
    (∀ ts w a now t', (claimTask ts w a now).2 = some t' →
      ∃ t0 ∈ ts, t0.status = TaskStatus.pending ∧
        t' = claimUpdate w a now t0) ∧
    (∀ ts w a now t, t ∈ ts →
      (t.status = TaskStatus.completed ∨ t.status = TaskStatus.failed) →
      t ∈ (claimTask ts w a now).1) ∧
    (∀ ops t, t ∈ applyOps ops → ∃! s, t.status = s) := by
  refine ⟨?_, attemptsMono_applyOp, claimTask_claimed_was_pending, ?_, ?_⟩
  · intro ops
    exact taskInv_applyOps ops [] (fun t h => absurd h (List.not_mem_nil t))
  · intro ts w a now t ht hterm
    refine claimTask_preserves_nonpending ts w a now t ht ?_
    rcases hterm with h | h <;> rw [h] <;> simp
  · intro ops t _
    exact ⟨t.status, rfl, fun s hs => hs.symm⟩

/-- Witness for C7: the task claimed from the singleton pending store was
pending there. -/
theorem task_store_invariants_witness :
    ∃ t0 ∈ [sampleTask], t0.status = TaskStatus.pending ∧
      claimUpdate "1" AgentType.claude "t1" sampleTask =
        claimUpdate "1" AgentType.claude "t1" t0 :=
  task_store_invariants.2.2.1 [sampleTask] "1" AgentType.claude "t1"
    (claimUpdate "1" AgentType.claude "t1" sampleTask) (by decide)

end Orchestra

namespace Orchestra

/-- C2 counterexample: on a reachable pool (codex mean duration 1/2 ms from
durations 0 then 1; claude success rate 3/4, mean duration 1) the source
selects codex, although claude is also available and has the strictly
greater spec score success_rate / max(1, mean_duration) — the source's
denominator is `avg || 1`, not `max(1, avg)`. -/
theorem select_score_formula_counterexample :
    selectAgent poolScoreCE 0 = SelectionResult.selected AgentType.codex ∧
    (poolScoreCE.get AgentType.claude).status = AgentStatus.available ∧
    specHealthScore (poolScoreCE.get AgentType.codex) <
      specHealthScore (poolScoreCE.get AgentType.claude) := by
  refine ⟨?_, rfl, ?_⟩
  · have hcmp : healthScore (poolScoreCE.get AgentType.claude) <
        healthScore (poolScoreCE.get AgentType.codex) := by
      norm_num [healthScore, jsOr1, poolScoreCE, mkAgentState,
        createInitialAgentState, AgentPool.get]
    have hrefresh : refreshAgentCooldowns poolScoreCE 0 = poolScoreCE := rfl
    have hfil : agentKinds.filter
        (fun k => decide ((poolScoreCE.get k).status = AgentStatus.available)) =
        [AgentType.claude, AgentType.codex] := rfl
    simp only [selectAgent, hrefresh, hfil, firstMaxBy, pickAcc, List.foldl]
    rw [if_pos hcmp]
  · have h1 : (max (1 : ℚ) (1 / 2)) = 1 := max_eq_left (by norm_num)
    norm_num [specHealthScore, poolScoreCE, mkAgentState,
      createInitialAgentState, AgentPool.get, h1]

/-- C8 counterexample: on `plannerOut11` all three extraction regexes fail,
the direct whole-output parse succeeds, and the run creates 11 tasks — more
than the claimed maximum of 10 (and none has a title). -/
theorem planner_direct_parse_counterexample :
    (plannerCreatedTasks plannerOut11).length = 11 := by
  decide

lemma validateParsed_props (j : Json) (po : PlannerOut)
    (h : validateParsed j = some po) :
    po.tasks.length ≤ 10 ∧ ∀ t ∈ po.tasks, taskFieldsTruthy t = true := by
  unfold validateParsed at h
  split at h
  · split at h
    · next ts heq =>
      have hpo := Option.some.inj h
      subst hpo
      constructor
      · simpa using List.length_take_le 10 (ts.filter taskFieldsTruthy)
      · intro t ht
        simp only at ht
        have hmem : t ∈ ts.filter taskFieldsTruthy := List.mem_of_mem_take ht
        exact (List.mem_filter.mp hmem).2
    · exact absurd h (by simp)
  · exact absurd h (by simp)

lemma runPatterns_matched : ∀ (pats : List (Option String)) (po : PlannerOut),
    runPatterns pats = PatternPhase.matched po →
    po.tasks.length ≤ 10 ∧ ∀ t ∈ po.tasks, taskFieldsTruthy t = true := by
  intro pats
  induction pats with
  | nil => intro po h; exact absurd h (by simp [runPatterns])
  | cons p rest ih =>
    intro po h
    cases p with
    | none => exact ih po (by simpa [runPatterns] using h)
    | some s =>
      simp only [runPatterns] at h
      cases hj : jsonParse s with
      | none =>
        rw [hj] at h
        exact PatternPhase.noConfusion h
      | some j =>
        rw [hj] at h
        dsimp only at h
        cases hv : validateParsed j with
        | none =>
          rw [hv] at h
          exact ih po h
        | some po2 =>
          rw [hv] at h
          have hpo : po2 = po := by cases h; rfl
          subst hpo
          exact validateParsed_props j po2 hv

/-- C8 (amended): a parse failure makes the run create no tasks; a result
produced inside the three-pattern loop keeps at most 10 tasks, all with
truthy title and description; but a result produced by the final
whole-output `JSON.parse` (reached when no pattern candidate validates)
returns the parsed `tasks` array unfiltered and untruncated. -/
theorem planner_parse_amended :
    (∀ output, parsePlannerOutput output = none → plannerCreatedTasks output = []) ∧
    (∀ pats po, runPatterns pats = PatternPhase.matched po →
      po.tasks.length ≤ 10 ∧ ∀ t ∈ po.tasks, taskFieldsTruthy t = true) ∧
    (∀ output d ts,
      runPatterns (patternMatchers output) = PatternPhase.fallthrough →
      jsonParse output = some d →
      jsTruthy (d.getField "analysis") = true →
      d.getField "tasks" = some (Json.arr ts) →
      plannerCreatedTasks output = ts) := by
  refine ⟨?_, runPatterns_matched, ?_⟩
  · intro o h
    unfold plannerCreatedTasks
    rw [h]
  · intro o d ts hrun hparse htruthy htasks
    unfold plannerCreatedTasks parsePlannerOutput
    rw [hrun, hparse]
    simp only [htruthy, if_true]
    rw [htasks]

/-- Witness for the amended C8: an unparsable output creates no tasks. -/
theorem planner_parse_amended_witness : plannerCreatedTasks "x" = [] :=
  planner_parse_amended.1 "x" (by rfl)

/-! ## Selection lemmas (claim C2) -/

lemma pickAcc_spec {α β : Type} [LinearOrder β] (key : α → β) :
    ∀ (l : List α) (b : α),
      (pickAcc key b l = b ∧ ∀ x ∈ l, key x ≤ key b) ∨
      (∃ l1 l2, l = l1 ++ pickAcc key b l :: l2 ∧
        key b < key (pickAcc key b l) ∧
        (∀ x ∈ l1, key x < key (pickAcc key b l)) ∧
        (∀ x ∈ l2, key x ≤ key (pickAcc key b l))) := by
  intro l
  induction l with
  | nil => intro b; left; exact ⟨rfl, by simp⟩
  | cons x xs ih =>
    intro b
    by_cases hbx : key b < key x
    · have hacc : pickAcc key b (x :: xs) = pickAcc key x xs := by
        simp [pickAcc, List.foldl_cons, hbx]
      rcases ih x with ⟨h1, h2⟩ | ⟨l1, l2, hdec, hlt, hl1, hl2⟩
      · right
        refine ⟨[], xs, ?_, ?_, by simp, ?_⟩
        · rw [hacc, h1]; rfl
        · rw [hacc, h1]; exact hbx
        · intro y hy; rw [hacc, h1]; exact h2 y hy
      · right
        refine ⟨x :: l1, l2, ?_, ?_, ?_, ?_⟩
        · rw [hacc]; simpa using congrArg (List.cons x) hdec
        · rw [hacc]; exact lt_trans hbx hlt
        · intro y hy
          rcases List.mem_cons.mp hy with h | h
          · subst h; rw [hacc]; exact hlt
          · rw [hacc]; exact hl1 y h
        · intro y hy; rw [hacc]; exact hl2 y hy
    · have hacc : pickAcc key b (x :: xs) = pickAcc key b xs := by
        simp [pickAcc, List.foldl_cons, hbx]
      rcases ih b with ⟨h1, h2⟩ | ⟨l1, l2, hdec, hlt, hl1, hl2⟩
      · left
        refine ⟨by rw [hacc, h1], ?_⟩
        intro y hy
        rcases List.mem_cons.mp hy with h | h
        · subst h; exact le_of_not_lt hbx
        · exact h2 y h
      · right
        refine ⟨x :: l1, l2, ?_, by rw [hacc]; exact hlt, ?_, ?_⟩
        · rw [hacc]; simpa using congrArg (List.cons x) hdec
        · intro y hy
          rcases List.mem_cons.mp hy with h | h
          · subst h; rw [hacc]
            exact lt_of_le_of_lt (le_of_not_lt hbx) hlt
          · rw [hacc]; exact hl1 y h
        · intro y hy; rw [hacc]; exact hl2 y hy

lemma firstMaxBy_spec {α β : Type} [LinearOrder β] (key : α → β)
    (l : List α) (r : α) (h : firstMaxBy key l = some r) :
    r ∈ l ∧ (∀ x ∈ l, key x ≤ key r) ∧
    ∃ l1 l2, l = l1 ++ r :: l2 ∧ ∀ x ∈ l1, key x < key r := by
  cases l with
  | nil => exact absurd h (by simp [firstMaxBy])
  | cons a rest =>
    have hr : r = pickAcc key a rest := by
      have := Option.some.inj h
      exact this.symm
    subst hr
    rcases pickAcc_spec key rest a with ⟨h1, h2⟩ | ⟨l1, l2, hdec, hlt, hl1, hl2⟩
    · refine ⟨by rw [h1]; exact List.mem_cons_self a rest, ?_, [], rest, ?_, by simp⟩
      · intro x hx
        rcases List.mem_cons.mp hx with hxa | hxr
        · subst hxa; rw [h1]
        · rw [h1]; exact h2 x hxr
      · rw [h1]; rfl
    · have hmem : pickAcc key a rest ∈ rest := by
        have h0 : pickAcc key a rest ∈ l1 ++ pickAcc key a rest :: l2 :=
          List.mem_append_right l1 (List.mem_cons_self _ _)
        rw [← hdec] at h0
        exact h0
      refine ⟨List.mem_cons_of_mem a hmem, ?_, a :: l1, l2, ?_, ?_⟩
      · intro x hx
        rcases List.mem_cons.mp hx with hxa | hxr
        · subst hxa; exact le_of_lt hlt
        · rw [hdec] at hxr
          rcases List.mem_append.mp hxr with hx1 | hx2
          · exact le_of_lt (hl1 x hx1)
          · rcases List.mem_cons.mp hx2 with hxe | hx3
            · subst hxe; exact le_refl _
            · exact hl2 x hx3
      · simpa using congrArg (List.cons a) hdec
      · intro x hx
        rcases List.mem_cons.mp hx with hxa | hxr
        · subst hxa; exact hlt
        · exact hl1 x hxr

lemma pickMinAcc_spec {α β : Type} [LinearOrder β] (key : α → β) :
    ∀ (l : List α) (b : α),
      (pickMinAcc key b l = b ∨ pickMinAcc key b l ∈ l) ∧
      key (pickMinAcc key b l) ≤ key b ∧
      ∀ x ∈ l, key (pickMinAcc key b l) ≤ key x := by
  intro l
  induction l with
  | nil => intro b; exact ⟨Or.inl rfl, le_refl _, by simp⟩
  | cons x xs ih =>
    intro b
    by_cases hxb : key x < key b
    · have hacc : pickMinAcc key b (x :: xs) = pickMinAcc key x xs := by
        simp [pickMinAcc, List.foldl_cons, hxb]
      obtain ⟨hm, hle, hall⟩ := ih x
      refine ⟨?_, ?_, ?_⟩
      · rw [hacc]
        rcases hm with h | h
        · exact Or.inr (by rw [h]; exact List.mem_cons_self x xs)
        · exact Or.inr (List.mem_cons_of_mem x h)
      · rw [hacc]; exact le_of_lt (lt_of_le_of_lt hle hxb)
      · intro y hy
        rcases List.mem_cons.mp hy with h | h
        · subst h; rw [hacc]; exact hle
        · rw [hacc]; exact hall y h
    · have hacc : pickMinAcc key b (x :: xs) = pickMinAcc key b xs := by
        simp [pickMinAcc, List.foldl_cons, hxb]
      obtain ⟨hm, hle, hall⟩ := ih b
      refine ⟨?_, by rw [hacc]; exact hle, ?_⟩
      · rw [hacc]
        rcases hm with h | h
        · exact Or.inl h
        · exact Or.inr (List.mem_cons_of_mem x h)
      · intro y hy
        rcases List.mem_cons.mp hy with h | h
        · subst h; rw [hacc]
          exact le_trans hle (le_of_not_lt hxb)
        · rw [hacc]; exact hall y h

lemma firstMinBy_spec {α β : Type} [LinearOrder β] (key : α → β)
    (l : List α) (r : α) (h : firstMinBy key l = some r) :
    r ∈ l ∧ ∀ x ∈ l, key r ≤ key x := by
  cases l with
  | nil => exact absurd h (by simp [firstMinBy])
  | cons a rest =>
    have hr : r = pickMinAcc key a rest := (Option.some.inj h).symm
    subst hr
    obtain ⟨hm, hle, hall⟩ := pickMinAcc_spec key rest a
    refine ⟨?_, ?_⟩
    · rcases hm with h1 | h1
      · rw [h1]; exact List.mem_cons_self a rest
      · exact List.mem_cons_of_mem a h1
    · intro x hx
      rcases List.mem_cons.mp hx with hxa | hxr
      · subst hxa; exact hle
      · exact hall x hxr

lemma firstMaxBy_none_iff {α β : Type} [LinearOrder β] (key : α → β)
    (l : List α) : firstMaxBy key l = none ↔ l = [] := by
  cases l <;> simp [firstMaxBy]

lemma firstMinBy_none_iff {α β : Type} [LinearOrder β] (key : α → β)
    (l : List α) : firstMinBy key l = none ↔ l = [] := by
  cases l <;> simp [firstMinBy]

/-- Position of a kind in the fixed fallback order. -/
def fallbackOrdinal : AgentType → Nat
  | .claude => 0
  | .codex => 1
  | .opencode => 2

/-- Strict precedence in the fallback order `[claude, codex, opencode]`. -/
def fallbackBefore (k k' : AgentType) : Prop :=
  fallbackOrdinal k < fallbackOrdinal k'

lemma mem_agentKinds (k : AgentType) : k ∈ agentKinds := by
  cases k <;> simp [agentKinds]

lemma agentKinds_sorted : agentKinds.Pairwise fallbackBefore := by
  simp [agentKinds, fallbackBefore, fallbackOrdinal]

lemma refreshAgentCooldowns_get (pool : AgentPool) (now : Nat) (k : AgentType) :
    (refreshAgentCooldowns pool now).get k = refreshOne (pool.get k) now := by
  cases k <;> rfl

lemma selectAgent_eq (pool : AgentPool) (now : Nat) :
    selectAgent pool now =
      (match firstMaxBy
          (fun k => healthScore ((refreshAgentCooldowns pool now).get k))
          (agentKinds.filter (fun k =>
            decide (((refreshAgentCooldowns pool now).get k).status =
              AgentStatus.available))) with
        | some best => SelectionResult.selected best
        | none =>
          match firstMinBy
              (fun k => rlSortKey ((refreshAgentCooldowns pool now).get k))
              (agentKinds.filter (fun k =>
                decide (((refreshAgentCooldowns pool now).get k).status =
                  AgentStatus.rate_limited))) with
          | some soonest =>
            SelectionResult.wait
              ((((refreshAgentCooldowns pool now).get soonest).available_at).getD now)
          | none => SelectionResult.pause) := rfl

/-- C2 (amended): after transitioning every rate-limited kind whose deadline
has passed back to available, select() returns selected(k) exactly when some
kind is available, with k available, of maximal source score
success_rate * (1 / (mean_duration || 1)), ties broken by the fixed fallback
order; it returns wait(u) with u the earliest available_at among rate-limited
kinds when none is available and some kind is rate-limited (all of them
carrying a deadline); and it returns pause exactly when every kind is busy,
errored, exhausted or disabled. -/
theorem select_agent_amended (pool : AgentPool) (now : Nat) :
    (∀ k t, (pool.get k).status = AgentStatus.rate_limited →
      (pool.get k).available_at = some t → t ≤ now →
      ((refreshAgentCooldowns pool now).get k).status = AgentStatus.available) ∧
    (∀ k, selectAgent pool now = SelectionResult.selected k →
      ((refreshAgentCooldowns pool now).get k).status = AgentStatus.available ∧
      (∀ k', ((refreshAgentCooldowns pool now).get k').status =
          AgentStatus.available →
        healthScore ((refreshAgentCooldowns pool now).get k') ≤
          healthScore ((refreshAgentCooldowns pool now).get k)) ∧
      (∀ k', ((refreshAgentCooldowns pool now).get k').status =
          AgentStatus.available →
        healthScore ((refreshAgentCooldowns pool now).get k') =
          healthScore ((refreshAgentCooldowns pool now).get k) → k' ≠ k →
        fallbackBefore k k')) ∧
    ((∃ k, ((refreshAgentCooldowns pool now).get k).status =
        AgentStatus.available) →
      ∃ k, selectAgent pool now = SelectionResult.selected k) ∧
    ((∀ k, ((refreshAgentCooldowns pool now).get k).status ≠
        AgentStatus.available) →
      (∃ k, ((refreshAgentCooldowns pool now).get k).status =
        AgentStatus.rate_limited) →
      (∀ k, ((refreshAgentCooldowns pool now).get k).status =
          AgentStatus.rate_limited →
        ((refreshAgentCooldowns pool now).get k).available_at ≠ none) →
      ∃ u k0, selectAgent pool now = SelectionResult.wait u ∧
        ((refreshAgentCooldowns pool now).get k0).status =
          AgentStatus.rate_limited ∧
        ((refreshAgentCooldowns pool now).get k0).available_at = some u ∧
        ∀ k t, ((refreshAgentCooldowns pool now).get k).status =
            AgentStatus.rate_limited →
          ((refreshAgentCooldowns pool now).get k).available_at = some t →
          u ≤ t) ∧
    (selectAgent pool now = SelectionResult.pause ↔
      ∀ k, ((refreshAgentCooldowns pool now).get k).status = AgentStatus.busy ∨
        ((refreshAgentCooldowns pool now).get k).status = AgentStatus.errored ∨
        ((refreshAgentCooldowns pool now).get k).status = AgentStatus.exhausted ∨
        ((refreshAgentCooldowns pool now).get k).status = AgentStatus.disabled) := by
  have hSel := selectAgent_eq pool now
  refine ⟨?_, ?_, ?_, ?_, ?_⟩
  · intro k t hst hav hle
    rw [refreshAgentCooldowns_get]
    unfold refreshOne
    rw [hav]
    dsimp only
    rw [if_pos ⟨hst, hle⟩]
  · intro k hk
    rw [hSel] at hk
    cases hmax : firstMaxBy
        (fun k => healthScore ((refreshAgentCooldowns pool now).get k))
        (agentKinds.filter (fun k =>
          decide (((refreshAgentCooldowns pool now).get k).status =
            AgentStatus.available))) with
    | none =>
      rw [hmax] at hk
      dsimp only at hk
      split at hk
      · exact SelectionResult.noConfusion hk
      · exact SelectionResult.noConfusion hk
    | some best =>
      rw [hmax] at hk
      dsimp only at hk
      have hbk : best = k := by cases hk; rfl
      subst hbk
      obtain ⟨hmem, hmaxall, l1, l2, hdec, hfirst⟩ := firstMaxBy_spec _ _ _ hmax
      have hmf := List.mem_filter.mp hmem
      have hstat : ((refreshAgentCooldowns pool now).get best).status =
          AgentStatus.available := by simpa using hmf.2
      refine ⟨hstat, ?_, ?_⟩
      · intro k' hk'
        exact hmaxall k'
          (List.mem_filter.mpr ⟨mem_agentKinds k', by simpa using hk'⟩)
      · intro k' hk' heq hne
        have hk'mem : k' ∈ agentKinds.filter (fun k =>
            decide (((refreshAgentCooldowns pool now).get k).status =
              AgentStatus.available)) :=
          List.mem_filter.mpr ⟨mem_agentKinds k', by simpa using hk'⟩
        have hpair : (agentKinds.filter (fun k =>
            decide (((refreshAgentCooldowns pool now).get k).status =
              AgentStatus.available))).Pairwise fallbackBefore :=
          List.Pairwise.filter _ agentKinds_sorted
        rw [hdec] at hk'mem hpair
        rcases List.mem_append.mp hk'mem with h1 | h2
        · exact absurd heq (ne_of_lt (hfirst k' h1))
        · rcases List.mem_cons.mp h2 with he | h3
          · exact absurd he hne
          · have hp2 := (List.pairwise_append.mp hpair).2.1
            exact (List.pairwise_cons.mp hp2).1 k' h3
  · rintro ⟨k, hk⟩
    have hmemav : k ∈ agentKinds.filter (fun k =>
        decide (((refreshAgentCooldowns pool now).get k).status =
          AgentStatus.available)) :=
      List.mem_filter.mpr ⟨mem_agentKinds k, by simpa using hk⟩
    cases hav : agentKinds.filter (fun k =>
        decide (((refreshAgentCooldowns pool now).get k).status =
          AgentStatus.available)) with
    | nil => rw [hav] at hmemav; exact absurd hmemav (List.not_mem_nil k)
    | cons a rest =>
      refine ⟨pickAcc
        (fun k => healthScore ((refreshAgentCooldowns pool now).get k)) a rest, ?_⟩
      rw [hSel, hav]
      rfl
  · intro hnav hex hall
    have havail : agentKinds.filter (fun k =>
        decide (((refreshAgentCooldowns pool now).get k).status =
          AgentStatus.available)) = [] :=
      List.filter_eq_nil_iff.mpr (fun k _ => by simpa using hnav k)
    obtain ⟨k0, hk0⟩ := hex
    have hk0mem : k0 ∈ agentKinds.filter (fun k =>
        decide (((refreshAgentCooldowns pool now).get k).status =
          AgentStatus.rate_limited)) :=
      List.mem_filter.mpr ⟨mem_agentKinds k0, by simpa using hk0⟩
    cases hrl : agentKinds.filter (fun k =>
        decide (((refreshAgentCooldowns pool now).get k).status =
          AgentStatus.rate_limited)) with
    | nil => rw [hrl] at hk0mem; exact absurd hk0mem (List.not_mem_nil k0)
    | cons a rest =>
      have hminspec := firstMinBy_spec
        (fun k => rlSortKey ((refreshAgentCooldowns pool now).get k))
        (a :: rest)
        (pickMinAcc (fun k => rlSortKey ((refreshAgentCooldowns pool now).get k))
          a rest) rfl
      have hsmem : pickMinAcc
          (fun k => rlSortKey ((refreshAgentCooldowns pool now).get k)) a rest ∈
          agentKinds.filter (fun k =>
            decide (((refreshAgentCooldowns pool now).get k).status =
              AgentStatus.rate_limited)) := by
        rw [hrl]; exact hminspec.1
      have hsf := List.mem_filter.mp hsmem
      have hsstat : ((refreshAgentCooldowns pool now).get (pickMinAcc
          (fun k => rlSortKey ((refreshAgentCooldowns pool now).get k))
          a rest)).status = AgentStatus.rate_limited := by simpa using hsf.2
      obtain ⟨u0, hu0⟩ : ∃ u0, ((refreshAgentCooldowns pool now).get (pickMinAcc
          (fun k => rlSortKey ((refreshAgentCooldowns pool now).get k))
          a rest)).available_at = some u0 := by
        cases hcase : ((refreshAgentCooldowns pool now).get (pickMinAcc
            (fun k => rlSortKey ((refreshAgentCooldowns pool now).get k))
            a rest)).available_at with
        | none => exact absurd hcase (hall _ hsstat)
        | some u => exact ⟨u, rfl⟩
      refine ⟨u0, _, ?_, hsstat, hu0, ?_⟩
      · rw [hSel, havail, hrl]
        dsimp only [firstMaxBy, firstMinBy]
        rw [hu0]
        rfl
      · intro k t hkst hkav
        have hkmem : k ∈ agentKinds.filter (fun k =>
            decide (((refreshAgentCooldowns pool now).get k).status =
              AgentStatus.rate_limited)) :=
          List.mem_filter.mpr ⟨mem_agentKinds k, by simpa using hkst⟩
        rw [hrl] at hkmem
        have hle := hminspec.2 k hkmem
        dsimp only at hle
        have e1 : rlSortKey ((refreshAgentCooldowns pool now).get (pickMinAcc
            (fun k => rlSortKey ((refreshAgentCooldowns pool now).get k))
            a rest)) = u0 := by
          show (((refreshAgentCooldowns pool now).get (pickMinAcc
            (fun k => rlSortKey ((refreshAgentCooldowns pool now).get k))
            a rest)).available_at).getD 0 = u0
          rw [hu0]
          rfl
        have e2 : rlSortKey ((refreshAgentCooldowns pool now).get k) = t := by
          show (((refreshAgentCooldowns pool now).get k).available_at).getD 0 = t
          rw [hkav]
          rfl
        rw [e1, e2] at hle
        exact hle
  · constructor
    · intro hpause k
      rw [hSel] at hpause
      cases hmax : firstMaxBy
          (fun k => healthScore ((refreshAgentCooldowns pool now).get k))
          (agentKinds.filter (fun k =>
            decide (((refreshAgentCooldowns pool now).get k).status =
              AgentStatus.available))) with
      | some b =>
        rw [hmax] at hpause
        dsimp only at hpause
        exact SelectionResult.noConfusion hpause
      | none =>
        rw [hmax] at hpause
        dsimp only at hpause
        cases hmin : firstMinBy
            (fun k => rlSortKey ((refreshAgentCooldowns pool now).get k))
            (agentKinds.filter (fun k =>
              decide (((refreshAgentCooldowns pool now).get k).status =
                AgentStatus.rate_limited))) with
        | some ss =>
          rw [hmin] at hpause
          dsimp only at hpause
          exact SelectionResult.noConfusion hpause
        | none =>
          have hav := (firstMaxBy_none_iff _ _).mp hmax
          have hrl0 := (firstMinBy_none_iff _ _).mp hmin
          have h1 : ¬((refreshAgentCooldowns pool now).get k).status =
              AgentStatus.available := by
            intro hc
            have hm : k ∈ agentKinds.filter (fun k =>
                decide (((refreshAgentCooldowns pool now).get k).status =
                  AgentStatus.available)) :=
              List.mem_filter.mpr ⟨mem_agentKinds k, by simpa using hc⟩
            rw [hav] at hm
            exact absurd hm (List.not_mem_nil k)
          have h2 : ¬((refreshAgentCooldowns pool now).get k).status =
              AgentStatus.rate_limited := by
            intro hc
            have hm : k ∈ agentKinds.filter (fun k =>
                decide (((refreshAgentCooldowns pool now).get k).status =
                  AgentStatus.rate_limited)) :=
              List.mem_filter.mpr ⟨mem_agentKinds k, by simpa using hc⟩
            rw [hrl0] at hm
            exact absurd hm (List.not_mem_nil k)
          cases hst : ((refreshAgentCooldowns pool now).get k).status with
          | available => exact absurd hst h1
          | rate_limited => exact absurd hst h2
          | busy => exact Or.inl rfl
          | errored => exact Or.inr (Or.inl rfl)
          | exhausted => exact Or.inr (Or.inr (Or.inl rfl))
          | disabled => exact Or.inr (Or.inr (Or.inr rfl))
    · intro hall
      have hav : agentKinds.filter (fun k =>
          decide (((refreshAgentCooldowns pool now).get k).status =
            AgentStatus.available)) = [] :=
        List.filter_eq_nil_iff.mpr (fun k _ => by
          rcases hall k with h | h | h | h <;> simp [h])
      have hrl0 : agentKinds.filter (fun k =>
          decide (((refreshAgentCooldowns pool now).get k).status =
            AgentStatus.rate_limited)) = [] :=
        List.filter_eq_nil_iff.mpr (fun k _ => by
          rcases hall k with h | h | h | h <;> simp [h])
      rw [hSel, hav, hrl0]
      rfl

/-- A pool for the amended-C2 witness: claude rate-limited past its deadline,
the others busy and disabled. -/
def poolRefreshW : AgentPool :=
  { claude := mkAgentState .rate_limited 1 0 (some 5)
    codex := mkAgentState .busy 1 0 none
    opencode := mkAgentState .disabled 1 0 none }

/-- Witness for the amended C2: claude's cooldown (deadline 5) has passed at
time 10, so the refresh step makes it available again. -/
theorem select_agent_amended_witness :
    ((refreshAgentCooldowns poolRefreshW 10).get AgentType.claude).status =
      AgentStatus.available :=
  (select_agent_amended poolRefreshW 10).1 AgentType.claude 5 (by decide)
    (by decide) (by decide)

end Orchestra
